import Mathlib

/-!
# A verification model of the buildxyz lookup resolver

This file embeds, as Lean definitions, the core data model and operations of
the buildxyz on-demand dependency shim (src/fs.rs, src/resolution.rs,
src/interactive.rs, src/popcount.rs), and proves properties about them.

Machine maps are modelled as follows:
* `BTreeMap<String, _>` (the resolution DB, toml tables) as association
  lists sorted strictly by key, with insert-or-replace keeping sortedness;
* `HashMap<u64, _>` inode tables as functions `Nat → Option _` updated
  pointwise;
* `HashMap<String, u64>` (`global_dirs`) as a cons-on-insert association
  list whose lookup takes the first (most recent) binding.

External effects (the on-disk shadow tree, the `nix-store --realize`
helper, the index query and the prompter channel) are passed to `lookup`
as explicit inputs in a `LookupEnv` record.
-/

namespace BuildXYZ

/-! ## Strings as BTreeMap keys -/

/-- Association list sorted strictly by key: the shallow embedding of
`BTreeMap<String, α>`. Functions assume, and theorems require, the
`DBSorted` well-formedness predicate below. -/
abbrev SortedMap (α : Type) := List (String × α)

/-- The key order of the `BTreeMap`: lexicographic on the character
lists (`String`'s `Ord`). -/
@[reducible] def keyLt (a b : String) : Prop := a.data < b.data

instance : DecidableRel keyLt := fun a b => inferInstanceAs (Decidable (a.data < b.data))

/-- Keys are strictly increasing: the `BTreeMap` representation invariant. -/
def DBSorted {α : Type} (l : SortedMap α) : Prop :=
  l.Pairwise (fun a b => keyLt a.1 b.1)

/-- Executable sortedness check, used to discharge `DBSorted` on concrete
maps. -/
def keysSortedB {α : Type} : SortedMap α → Bool
  | [] => true
  | [_] => true
  | a :: b :: t => decide (keyLt a.1 b.1) && keysSortedB (b :: t)

/-- `BTreeMap::get`. -/
def alLookup {α : Type} (k : String) : SortedMap α → Option α
  | [] => none
  | (k', v) :: t => if k' = k then some v else alLookup k t

/-- `BTreeMap::insert`: insert or replace, keeping keys sorted. -/
def alInsert {α : Type} (k : String) (v : α) : SortedMap α → SortedMap α
  | [] => [(k, v)]
  | (k', v') :: t =>
    if keyLt k k' then (k, v) :: (k', v') :: t
    else if k = k' then (k, v) :: t
    else (k', v') :: alInsert k v t

/-- `collect()` of an iterator of pairs into a `BTreeMap`: left-to-right
inserts into an empty map, so later bindings of a key overwrite earlier
ones. -/
def alOfList {α : Type} (l : List (String × α)) : SortedMap α :=
  l.foldl (fun acc kv => alInsert kv.1 kv.2 acc) []

/-- Strict `Option` alternative: `optOr a b` is `a` unless `a = none`. -/
def optOr {α : Type} : Option α → Option α → Option α
  | some a, _ => some a
  | none, b => b

/-- The *last* binding of `q` in a (possibly duplicated) pair list; this is
what `collect()` into a `BTreeMap` keeps. -/
def lastLookup {α : Type} (q : String) : List (String × α) → Option α
  | [] => none
  | (k, v) :: t => optOr (lastLookup q t) (if k = q then some v else none)


/-! ## Data model: store paths and file tree entries (src/cache) -/

/-- Modelled from the spec: `StorePath.origin()` carries at least the
attribute name and the `toplevel` flag (src/cache/package.rs is not in
the sources). -/
structure PathOrigin where
  attr : String
  toplevel : Bool
deriving DecidableEq, Repr

/-- Modelled from the spec: an opaque content-addressed package identity;
`path` is its `as_str()` serialization, `origin` its origin sub-record. -/
structure StorePath where
  path : String
  origin : PathOrigin
deriving DecidableEq, Repr

/-- `fuser::FileType`. -/
inductive FileType where
  | NamedPipe
  | CharDevice
  | BlockDevice
  | Directory
  | RegularFile
  | Symlink
  | Socket
deriving DecidableEq, Repr

/-- `cache::FileNode` (src/cache/files.rs is not in the sources; the
resolver only matches on the three variants, whose payloads it ignores). -/
inductive FileNode where
  | Regular
  | Symlink
  | Directory
deriving DecidableEq, Repr

/-- `cache::FileTreeEntry`: package-relative path bytes (starting with
`/`) plus the node variant. -/
structure FileTreeEntry where
  path : String
  node : FileNode
deriving DecidableEq, Repr

/-- `impl Into<fuser::FileAttr> for FileNode` (fs.rs): the attribute kind
served to the kernel: `Regular` and `Symlink` both become `Symlink`
(the driver only answers `readlink`), `Directory` is preserved. -/
def FileNode.attrKind : FileNode → FileType
  | FileNode.Regular => FileType.Symlink
  | FileNode.Symlink => FileType.Symlink
  | FileNode.Directory => FileType.Directory

/-- `is_file_or_symlink` (fs.rs). -/
def is_file_or_symlink : FileNode → Bool
  | FileNode.Regular => true
  | FileNode.Symlink => true
  | FileNode.Directory => false

/-- `is_dir` (fs.rs); note `Symlink` counts as a directory-like node. -/
def is_dir : FileNode → Bool
  | FileNode.Regular => false
  | FileNode.Symlink => true
  | FileNode.Directory => true

/-- Modelled from the spec: `StorePath::join` / `join_entry`
(src/cache/package.rs is not in the sources) synthesize the full store
path by joining the store path with a package-relative entry name that
starts with `/`. -/
def StorePath.join (sp : StorePath) (name : String) : String :=
  match name.data with
  | '/' :: _ => sp.path ++ name
  | _ => sp.path ++ "/" ++ name

/-- `store_path.join_entry(ft_entry)` (fs.rs lookup): join with the
entry's path bytes. -/
def StorePath.join_entry (sp : StorePath) (e : FileTreeEntry) : String :=
  sp.join e.path

/-! ## The resolution store (src/resolution.rs) -/

/-- `ParseResolutionError` (src/resolution.rs). -/
inductive ParseResolutionError where
  | MissingField (field : String)
  | UnexpectedType (expected : String) (field : String)
deriving DecidableEq, Repr

/-- A TOML value, as far as the resolution reader inspects one. Tables are
`BTreeMap`s, embedded as sorted association lists. -/
inductive Toml where
  | str (s : String)
  | int (n : Int)
  | boolean (b : Bool)
  | table (kvs : List (String × Toml))
  | arr (xs : List Toml)

/-- Outcome of a fallible Rust computation that can also `panic!` /
`expect` / `unwrap`. -/
inductive ParseOutcome (α : Type) where
  | ok (val : α)
  | err (e : ParseResolutionError)
  | panicked (msg : String)

/-- `ProvideData` (src/resolution.rs). -/
structure ProvideData where
  kind : FileType
  file_entry_name : String
  store_path : StorePath
deriving DecidableEq, Repr

/-- `Decision` (src/resolution.rs). -/
inductive Decision where
  | Provide (data : ProvideData)
  | Ignore
deriving DecidableEq, Repr

/-- `ResolutionData` (src/resolution.rs). -/
structure ResolutionData where
  requested_path : String
  decision : Decision
deriving DecidableEq, Repr

/-- `Resolution` (src/resolution.rs); only `ConstantResolution` exists. -/
inductive Resolution where
  | ConstantResolution (data : ResolutionData)
deriving DecidableEq, Repr

/-- `Resolution::requested_path` (src/resolution.rs). -/
def Resolution.requested_path : Resolution → String
  | Resolution.ConstantResolution d => d.requested_path

/-- `ResolutionDB = BTreeMap<String, Resolution>` (src/resolution.rs). -/
abbrev ResolutionDB := SortedMap Resolution

/-- `parse_filetype_kind` (src/resolution.rs). -/
def parse_filetype_kind (v : String) : ParseOutcome FileType :=
  if v = "socket" then ParseOutcome.ok FileType.Socket
  else if v = "symlink" then ParseOutcome.ok FileType.Symlink
  else if v = "named-pipe" then ParseOutcome.ok FileType.NamedPipe
  else if v = "directory" then ParseOutcome.ok FileType.Directory
  else if v = "char-device" then ParseOutcome.ok FileType.CharDevice
  else if v = "block-device" then ParseOutcome.ok FileType.BlockDevice
  else if v = "regular-file" then ParseOutcome.ok FileType.RegularFile
  else ParseOutcome.err (ParseResolutionError.UnexpectedType "fuser::FileType" "kind")

/-- Modelled from the spec: the `store_path` sub-table deserializes back
into a `StorePath` (the serde impl lives in src/cache/package.rs, not in
the sources); any other shape makes the deserializer fail, which
`ProvideData::from_toml` unwraps into a panic. -/
def storePathOfToml : Toml → Option StorePath
  | Toml.table kvs =>
    match alLookup "path" kvs, alLookup "attr" kvs, alLookup "toplevel" kvs with
    | some (Toml.str p), some (Toml.str a), some (Toml.boolean b) =>
      some { path := p, origin := { attr := a, toplevel := b } }
    | _, _, _ => none
  | _ => none

/-- Modelled from the spec: serialization of a `StorePath` into the
`store_path` sub-table, the inverse of `storePathOfToml`. -/
def storePathToToml (sp : StorePath) : Toml :=
  Toml.table (alInsert "toplevel" (Toml.boolean sp.origin.toplevel)
    (alInsert "attr" (Toml.str sp.origin.attr)
      (alInsert "path" (Toml.str sp.path) [])))

/-- `ProvideData::from_toml` (src/resolution.rs): fields are read in
declaration order; `kind` and `file_entry_name` report `MissingField` /
`UnexpectedType`, but a missing or malformed `store_path` panics
(`expect` / `unwrap` in the source). -/
def ProvideData.from_toml (data : List (String × Toml)) : ParseOutcome ProvideData :=
  match alLookup "kind" data with
  | some (Toml.str v) =>
    match parse_filetype_kind v with
    | ParseOutcome.err e => ParseOutcome.err e
    | ParseOutcome.panicked m => ParseOutcome.panicked m
    | ParseOutcome.ok kind =>
      match alLookup "file_entry_name" data with
      | some (Toml.str name) =>
        match alLookup "store_path" data with
        | none => ParseOutcome.panicked "missing `store_path` field"
        | some sp =>
          match storePathOfToml sp with
          | none => ParseOutcome.panicked "called `Result::unwrap()` on an `Err` value"
          | some store_path =>
            ParseOutcome.ok { kind := kind, file_entry_name := name, store_path := store_path }
      | some _ =>
        ParseOutcome.err (ParseResolutionError.UnexpectedType "string" "file_entry_name")
      | none => ParseOutcome.err (ParseResolutionError.MissingField "file_entry_name")
  | none => ParseOutcome.err (ParseResolutionError.MissingField "kind")
  | some _ => ParseOutcome.err (ParseResolutionError.UnexpectedType "string" "kind")

/-- `Decision::from_toml` (src/resolution.rs). -/
def Decision.from_toml (decision : List (String × Toml)) : ParseOutcome Decision :=
  match alLookup "decision" decision with
  | some (Toml.str c) =>
    if c = "ignore" then ParseOutcome.ok Decision.Ignore
    else if c = "provide" then
      match ProvideData.from_toml decision with
      | ParseOutcome.ok d => ParseOutcome.ok (Decision.Provide d)
      | ParseOutcome.err e => ParseOutcome.err e
      | ParseOutcome.panicked m => ParseOutcome.panicked m
    else
      ParseOutcome.err
        (ParseResolutionError.UnexpectedType "`ignore` or `provide`" "decision")
  | none => ParseOutcome.err (ParseResolutionError.MissingField "decision")
  | some _ =>
    ParseOutcome.err
      (ParseResolutionError.UnexpectedType "`ignore` or `provide`" "decision")

/-- `Resolution::from_toml_item` (src/resolution.rs): both the map key and
the stored `requested_path` are set to the table key. -/
def Resolution.from_toml_item : String × Toml → ParseOutcome (String × Resolution)
  | (key, Toml.table tbl) =>
    match Decision.from_toml tbl with
    | ParseOutcome.ok d =>
      ParseOutcome.ok
        (key, Resolution.ConstantResolution { requested_path := key, decision := d })
    | ParseOutcome.err e => ParseOutcome.err e
    | ParseOutcome.panicked m => ParseOutcome.panicked m
  | (key, _) => ParseOutcome.err (ParseResolutionError.UnexpectedType "a table" key)

/-- The `.map(Self::from_toml_item).collect::<ParseResult<_>>()` traversal:
short-circuits at the first error or panic. -/
def Resolution.from_toml_items : List (String × Toml) → ParseOutcome (List (String × Resolution))
  | [] => ParseOutcome.ok []
  | item :: rest =>
    match Resolution.from_toml_item item with
    | ParseOutcome.ok kr =>
      match Resolution.from_toml_items rest with
      | ParseOutcome.ok l => ParseOutcome.ok (kr :: l)
      | ParseOutcome.err e => ParseOutcome.err e
      | ParseOutcome.panicked m => ParseOutcome.panicked m
    | ParseOutcome.err e => ParseOutcome.err e
    | ParseOutcome.panicked m => ParseOutcome.panicked m

/-- `Resolution::from_toml` (src/resolution.rs): parse the whole document. -/
def Resolution.from_toml : Toml → ParseOutcome ResolutionDB
  | Toml.table items =>
    match Resolution.from_toml_items items with
    | ParseOutcome.ok l => ParseOutcome.ok (alOfList l)
    | ParseOutcome.err e => ParseOutcome.err e
    | ParseOutcome.panicked m => ParseOutcome.panicked m
  | _ =>
    ParseOutcome.err
      (ParseResolutionError.UnexpectedType "an array of table" "the whole document")

/-- `read_resolution_db` (src/resolution.rs): the input is the already
TOML-parsed document (a syntactically invalid document panics before this
point); note the `.ok()`, which silently turns every
`ParseResolutionError` into `None`. -/
def read_resolution_db (data : Toml) : ParseOutcome (Option ResolutionDB) :=
  match Resolution.from_toml data with
  | ParseOutcome.ok db => ParseOutcome.ok (some db)
  | ParseOutcome.err _ => ParseOutcome.ok none
  | ParseOutcome.panicked m => ParseOutcome.panicked m

/-- `merge_resolution_db` (src/resolution.rs):
`left.into_iter().chain(right).collect()`, so `right` wins on collisions. -/
def merge_resolution_db (left right : ResolutionDB) : ResolutionDB :=
  alOfList (left ++ right)

/-- The string form of a `fuser::FileType` used by
`ProvideData::to_human_toml_table` (src/resolution.rs). -/
def filetype_kind_str : FileType → String
  | FileType.Socket => "socket"
  | FileType.Symlink => "symlink"
  | FileType.NamedPipe => "named-pipe"
  | FileType.Directory => "directory"
  | FileType.CharDevice => "char-device"
  | FileType.BlockDevice => "block-device"
  | FileType.RegularFile => "regular-file"

/-- `ProvideData::to_human_toml_table` (src/resolution.rs). -/
def ProvideData.to_human_toml_table (d : ProvideData) : List (String × Toml) :=
  alInsert "store_path" (storePathToToml d.store_path)
    (alInsert "file_entry_name" (Toml.str d.file_entry_name)
      (alInsert "kind" (Toml.str (filetype_kind_str d.kind)) []))

/-- `Decision::to_human_toml_table` (src/resolution.rs). -/
def Decision.to_human_toml_table : Decision → List (String × Toml)
  | Decision.Provide d =>
    (d.to_human_toml_table).foldl (fun acc kv => alInsert kv.1 kv.2 acc)
      (alInsert "decision" (Toml.str "provide") [])
  | Decision.Ignore => alInsert "decision" (Toml.str "ignore") []

/-- `Resolution::to_human_toml_table` (src/resolution.rs): a one-entry
table keyed by the value's own `requested_path`, not by any map key. -/
def Resolution.to_human_toml_table : Resolution → List (String × Toml)
  | Resolution.ConstantResolution d =>
    alInsert d.requested_path
      (Toml.table
        ((d.decision.to_human_toml_table).foldl (fun acc kv => alInsert kv.1 kv.2 acc)
          (alInsert "resolution" (Toml.str "constant") [])))
      []

/-- `db_to_human_toml` (src/resolution.rs): extend an empty table with
each value's `to_human_toml_table`, in map (key) order. -/
def db_to_human_toml (db : ResolutionDB) : List (String × Toml) :=
  db.foldl
    (fun acc kr =>
      (Resolution.to_human_toml_table kr.2).foldl (fun a kv => alInsert kv.1 kv.2 a) acc)
    []

/-! ## The popularity oracle (src/popcount.rs) -/

/-- `Popcount` (src/popcount.rs); only `native_build_inputs` is consulted
by the resolver. `HashMap<String, u32>` is embedded as a function. -/
structure Popcount where
  native_build_inputs : String → Option Nat

/-- The `as i32` cast of a `u32` value (two's complement reading). -/
def u32_as_i32 (n : Nat) : Int :=
  if n % 2 ^ 32 < 2 ^ 31 then ((n % 2 ^ 32 : Nat) : Int)
  else ((n % 2 ^ 32 : Nat) : Int) - 2 ^ 32

/-- The ranking key passed to `sort_by_cached_key` in `lookup` (fs.rs):
the negated popularity of the candidate's store path string, scoring `0`
when the path is absent from the oracle. -/
def popKey (pb : Popcount) (c : StorePath × FileTreeEntry) : Int :=
  -(u32_as_i32 ((pb.native_build_inputs c.1.path).getD 0))

/-- `Vec::sort_by_cached_key`: a stable sort by an `i32` key, embedded as
insertion sort (any two stable sorts by a total key order agree). -/
def sort_by_cached_key {α : Type} (key : α → Int) (l : List α) : List α :=
  List.insertionSort (fun a b => key a ≤ key b) l

/-- `extract_optimal_path` (fs.rs): sort the candidate vector in place by
the key and take its first element (`none` only for an empty vector, on
which the source's `first().unwrap()` panics; callers pass non-empty
vectors). Returns the sorted vector together with that head. -/
def extract_optimal_path {α : Type} (key : α → Int) (candidates : List α) :
    List α × Option α :=
  let sorted := sort_by_cached_key key candidates
  (sorted, sorted.head?)

/-! ## The lookup resolver state (src/fs.rs) -/

/-- Pointwise update of a `HashMap<u64, α>`-as-function. -/
def hmUpdate {α : Type} (m : Nat → Option α) (k : Nat) (v : α) : Nat → Option α :=
  fun i => if i = k then some v else m i

/-- `HashMap<String, u64>` lookup for `global_dirs`, embedded as a list
whose most recent binding wins. -/
def hmLookupS (m : List (String × Nat)) (k : String) : Option Nat :=
  (m.find? (fun kv => kv.1 == k)).map Prod.snd

/-- `Path::new(prefix).join(name)` for the relative names the kernel
passes: at the mount root the empty prefix yields `name` itself. -/
def joinPath (p n : String) : String := if p = "" then n else p ++ "/" ++ n

/-- `FsEventMessage` (fs.rs): the reply channel from the prompter. -/
inductive FsEventMessage where
  | IgnorePendingRequests
  | PackageSuggestion (pkg : StorePath)
deriving DecidableEq, Repr

/-- A reply issued to the kernel by `lookup`: a `reply.entry` with a
validity in seconds, an inode and an attribute kind, an ENOENT error, or
a process abort (`expect`). -/
inductive Reply where
  | entry (ttlSecs : Nat) (ino : Nat) (kind : FileType)
  | enoent
  | panicked
deriving DecidableEq, Repr

/-- The mutable state of the `BuildXYZ` filesystem (fs.rs). The
`extended` field is an observation trace: the arguments of the
`extend_fast_working_tree` calls made so far, in order. -/
structure FsState where
  resolution_db : ResolutionDB
  recorded_enoent : List (Nat × String)
  global_dirs : List (String × Nat)
  parent_prefixes : Nat → Option String
  nix_paths : Nat → Option String
  redirections : Nat → Option String
  fast_working_tree : String
  last_inode : Nat
  popcount_buffer : Popcount
  extended : List StorePath

/-- The environment a single `lookup` call runs against: the outcome of
its external probes (shadow tree on disk, index query, prompter channel,
`nix-store --realize`). -/
structure LookupEnv where
  shadow_exists : Bool
  index_result : List (StorePath × FileTreeEntry)
  prompter_reply : Option FsEventMessage
  realize : String → Bool

/-- The result of one `lookup` call: the kernel reply, the state after
the call, and the `InteractiveSearch(candidates, suggested)` message sent
to the prompter, if any. -/
structure LookupOut where
  reply : Reply
  state : FsState
  sent : Option (List (StorePath × FileTreeEntry) × StorePath)

/-- `search_in_index` (fs.rs): the index rows for the target's anchored
regex, filtered to top-level store paths. -/
def search_in_index (env : LookupEnv) : List (StorePath × FileTreeEntry) :=
  env.index_result.filter (fun c => c.1.origin.toplevel)

/-- `record_resolution` (fs.rs): insert a `ConstantResolution` into the
DB keyed by the rebuilt virtual path (the lookup's `target`), storing the
same path as `requested_path`. -/
def record_resolution (st : FsState) (current_path : String) (d : Decision) : FsState :=
  { st with resolution_db :=
      (alInsert current_path
        (Resolution.ConstantResolution { requested_path := current_path, decision := d })
        st.resolution_db) }

/-- `get_decision` (fs.rs). -/
def get_decision (st : FsState) (current_path : String) : Option Decision :=
  match alLookup current_path st.resolution_db with
  | some (Resolution.ConstantResolution d) => some d.decision
  | none => none

/-- `extend_fast_working_tree` (fs.rs): shadow-symlink the store path
into the fast working tree. The on-disk effect lives outside the state;
the call is recorded in the `extended` trace. -/
def extend_fast_working_tree (st : FsState) (sp : StorePath) : FsState :=
  { st with extended := st.extended ++ [sp] }

/-- `serve_path` (fs.rs): register the inode under `parent_prefixes`,
realize the nix path (a failure panics via `expect`), register it under
`nix_paths` and reply a 20-minute entry. -/
def serve_path (st : FsState) (env : LookupEnv) (nix_path : String)
    (requested_path : String) (ino : Nat) (kind : FileType)
    (sent : Option (List (StorePath × FileTreeEntry) × StorePath)) : LookupOut :=
  let st1 := { st with parent_prefixes := hmUpdate st.parent_prefixes ino requested_path }
  if env.realize nix_path then
    { reply := Reply.entry 1200 ino kind,
      state := { st1 with nix_paths := hmUpdate st1.nix_paths ino nix_path },
      sent := sent }
  else
    { reply := Reply.panicked, state := st1, sent := sent }

/-- `redirect_to_fs` (fs.rs): allocate a fresh inode, register the
on-filesystem path under `redirections` and reply a 20-minute symlink. -/
def redirect_to_fs (st : FsState) (onfs_path : String) : LookupOut :=
  let ino := st.last_inode
  { reply := Reply.entry 1200 ino FileType.Symlink,
    state := { st with last_inode := st.last_inode + 1,
                       redirections := hmUpdate st.redirections ino onfs_path },
    sent := none }

/-- `BuildXYZ::lookup` (fs.rs), with its external probes supplied by
`env`. An unknown parent inode panics (`expect`). -/
def lookup (st : FsState) (env : LookupEnv) (parent : Nat) (name : String) : LookupOut :=
  match st.parent_prefixes parent with
  | none => { reply := Reply.panicked, state := st, sent := none }
  | some pfx =>
    let target := joinPath pfx name
    match hmLookupS st.global_dirs target with
    | some ino =>
      { reply := Reply.entry 3600 ino FileType.Directory, state := st, sent := none }
    | none =>
      if parent = 1 then { reply := Reply.enoent, state := st, sent := none }
      else if st.recorded_enoent.contains (parent, name) then
        { reply := Reply.enoent, state := st, sent := none }
      else if env.shadow_exists then
        redirect_to_fs st (joinPath st.fast_working_tree target)
      else
        match get_decision st target with
        | some Decision.Ignore => { reply := Reply.enoent, state := st, sent := none }
        | some (Decision.Provide data) =>
          let nix_path := data.store_path.join data.file_entry_name
          let ino := st.last_inode
          serve_path { st with last_inode := st.last_inode + 1 } env nix_path target ino
            data.kind none
        | none =>
          match search_in_index env with
          | [] =>
            { reply := Reply.enoent,
              state := { st with recorded_enoent := (parent, name) :: st.recorded_enoent },
              sent := none }
          | c :: cs =>
            match extract_optimal_path (popKey st.popcount_buffer) (c :: cs) with
            | (_, none) => { reply := Reply.panicked, state := st, sent := none }
            | (sortedAll, some best) =>
              let store_path := best.1
              let ft_entry := best.2
              let file_entry_name := ft_entry.path
              let kind := ft_entry.node.attrKind
              let nix_path := store_path.join_entry ft_entry
              let sent := some (sortedAll, store_path)
              match env.prompter_reply with
              | some (FsEventMessage.PackageSuggestion pkg) =>
                let ino := st.last_inode
                let st1 := { st with last_inode := st.last_inode + 1 }
                let st2 := record_resolution st1 target
                  (Decision.Provide
                    { kind := kind, file_entry_name := file_entry_name, store_path := pkg })
                let st3 := extend_fast_working_tree st2 store_path
                serve_path st3 env nix_path target ino kind sent
              | _ =>
                let st1 := record_resolution st target Decision.Ignore
                { reply := Reply.enoent,
                  state :=
                    { st1 with recorded_enoent := (parent, name) :: st1.recorded_enoent },
                  sent := sent }

/-- A reply issued by `readlink`. -/
inductive ReadlinkReply where
  | data (bytes : String)
  | enoent
  | panicked
deriving DecidableEq, Repr

/-- `BuildXYZ::readlink` (fs.rs): re-realize `nix_paths` entries (failure
degrades to ENOENT and the entry is kept), serve `redirections` entries
verbatim, ENOENT otherwise. The state is returned unchanged. -/
def readlink (st : FsState) (realize : String → Bool) (ino : Nat) :
    ReadlinkReply × FsState :=
  match st.nix_paths ino with
  | some nix_path =>
    if realize nix_path then (ReadlinkReply.data nix_path, st)
    else (ReadlinkReply.enoent, st)
  | none =>
    match st.redirections ino with
    | some p => (ReadlinkReply.data p, st)
    | none => (ReadlinkReply.enoent, st)

/-- The hardcoded FHS-like directories registered by `init` (fs.rs). -/
def fhs_dirs : List String :=
  ["bin", "include", "perl", "aclocal", "cmake", "lib", "lib/pkgconfig"]

/-- `mkdir_fhs_directory` (fs.rs): allocate an inode, register it in
`parent_prefixes` and `global_dirs`. -/
def mkdir_fhs_directory (st : FsState) (path : String) : FsState :=
  let ino := st.last_inode
  { st with last_inode := st.last_inode + 1,
            parent_prefixes := hmUpdate st.parent_prefixes ino path,
            global_dirs := (path, ino) :: st.global_dirs }

/-- The store paths of all `Provide` decisions in the DB, in map order
(`init` eagerly extends the fast working tree with them). -/
def store_paths_of_db (db : ResolutionDB) : List StorePath :=
  db.filterMap (fun kr =>
    match kr.2 with
    | Resolution.ConstantResolution d =>
      match d.decision with
      | Decision.Provide pd => some pd.store_path
      | Decision.Ignore => none)

/-- `BuildXYZ::init` (fs.rs): insert the mount root (inode 1, empty
prefix), register the FHS directories, and pre-extend the fast working
tree with every recorded `Provide`. -/
def fsInit (st : FsState) : FsState :=
  let st1 := { st with parent_prefixes := hmUpdate st.parent_prefixes 1 "" }
  let st2 := fhs_dirs.foldl mkdir_fhs_directory st1
  (store_paths_of_db st2.resolution_db).foldl extend_fast_working_tree st2

/-- A `BuildXYZ` instance as constructed before `init` runs: empty inode
tables, `last_inode = 2`. -/
def mkState (db : ResolutionDB) (pb : Popcount) (fwt : String) : FsState :=
  { resolution_db := db
    recorded_enoent := []
    global_dirs := []
    parent_prefixes := fun _ => none
    nix_paths := fun _ => none
    redirections := fun _ => none
    fast_working_tree := fwt
    last_inode := 2
    popcount_buffer := pb
    extended := [] }

/-- One kernel `lookup` call together with its environment. -/
structure LookupCall where
  parent : Nat
  name : String
  env : LookupEnv

/-- Run a sequence of `lookup` calls, threading the state. -/
def runLookups (st : FsState) : List LookupCall → FsState
  | [] => st
  | c :: cs => runLookups (lookup st c.env c.parent c.name).state cs

/-! ## The interactive prompter (src/interactive.rs) -/

/-- `str::trim` at the character level (whitespace from both ends). -/
def strTrim (s : String) : String :=
  String.mk (((s.data.dropWhile Char.isWhitespace).reverse.dropWhile Char.isWhitespace).reverse)

/-- `str::to_lowercase`, as far as the `n`/`no` comparisons observe it
(ASCII letters). -/
def lowerChar (c : Char) : Char :=
  if 'A' ≤ c ∧ c ≤ 'Z' then Char.ofNat (c.toNat + 32) else c

/-- Lowercase every character of a string. -/
def strLower (s : String) : String := String.mk (s.data.map lowerChar)

/-- The numeric value of a nonempty all-digit character list. -/
def digitsToNat (l : List Char) : Option Nat :=
  if l ≠ [] ∧ l.all Char.isDigit then
    some (l.foldl (fun acc c => acc * 10 + (c.toNat - 48)) 0)
  else none

/-- Rust `str::parse::<usize>`: an optional leading `+` followed by at
least one ASCII digit (counts larger than the candidate list are
rejected by the range check either way). -/
def parse_usize (s : String) : Option Nat :=
  match s.data with
  | '+' :: rest => digitsToNat rest
  | l => digitsToNat l

/-- The "skip" test of `prompt_among_choices` (src/interactive.rs): the
trimmed line lowercased is `n` or `no`, or the trimmed line is empty. -/
def is_no_answer (line : String) : Bool :=
  strLower (strTrim line) == "n" || strLower (strTrim line) == "no" || strTrim line == ""

/-- What one loop iteration of `prompt_among_choices` does with the line
it read. -/
inductive PromptOutcome where
  | pick (index : Nat)
  | skip
  | retry
deriving DecidableEq, Repr

/-- One loop iteration of `prompt_among_choices` (src/interactive.rs)
over `n` choices: skip answers first, then `parse::<usize>` with the
`1 ≤ k ≤ n` range check; anything else re-prompts. -/
def promptStep (n : Nat) (line : String) : PromptOutcome :=
  if is_no_answer line then PromptOutcome.skip
  else
    match parse_usize (strTrim line) with
    | some k => if 1 ≤ k ∧ k ≤ n then PromptOutcome.pick (k - 1) else PromptOutcome.retry
    | none => PromptOutcome.retry

/-- `prompt_among_choices` (src/interactive.rs) run against the list of
lines the user will type: `some (some i)` picks index `i`, `some none` is
the skip answer, `none` means it is still re-prompting when the input
runs out. -/
def prompt_among_choices (choices : List String) : List String → Option (Option Nat)
  | [] => none
  | line :: rest =>
    match promptStep choices.length line with
    | PromptOutcome.pick k => some (some k)
    | PromptOutcome.skip => some none
    | PromptOutcome.retry => prompt_among_choices choices rest

/-- A reply sent back to the FS thread by the UI worker
(src/interactive.rs sends candidate pairs). -/
inductive UiReply where
  | PackageSuggestion (c : StorePath × FileTreeEntry)
  | IgnorePendingRequests
deriving DecidableEq, Repr

/-- Outcome of the UI worker's handling of one `InteractiveSearch`. -/
inductive UiOutcome where
  | replied (r : UiReply)
  | pending
  | panicked
deriving DecidableEq, Repr

/-- The handling of one `InteractiveSearch(candidates, suggested)`
message by `spawn_ui` (src/interactive.rs): automatic mode replies the
suggestion at once; otherwise the numbered prompt runs over the user's
input lines and a picked index is sent as `candidates[index]`. -/
def ui_reply (automatic : Bool) (candidates : List (StorePath × FileTreeEntry))
    (suggested : StorePath × FileTreeEntry) (inputs : List String) : UiOutcome :=
  if automatic then UiOutcome.replied (UiReply.PackageSuggestion suggested)
  else
    match prompt_among_choices (candidates.map (fun c => c.1.origin.attr)) inputs with
    | some (some index) =>
      match candidates[index]? with
      | some c => UiOutcome.replied (UiReply.PackageSuggestion c)
      | none => UiOutcome.panicked
    | some none => UiOutcome.replied UiReply.IgnorePendingRequests
    | none => UiOutcome.pending

/-! ## The shadow-tree symlink resolution loop (src/fs.rs) -/

/-- The symlink-resolution loop of `shadow_symlink_leaves` (fs.rs):
`let mut resolved_target = read_link(entry); while
resolved_target.is_symlink() { resolved_target = read_link(entry); }` —
the loop body reads `entry` again, not `resolved_target`. `fuel` bounds
the number of iterations; `none` means the loop has not exited within
`fuel` iterations. `is_symlink` and `read_link` describe the on-disk
tree. -/
def resolveGo (is_symlink : String → Bool) (read_link : String → String)
    (entry : String) : String → Nat → Option String
  | t, 0 => if is_symlink t then none else some t
  | t, fuel + 1 =>
    if is_symlink t then resolveGo is_symlink read_link entry (read_link entry) fuel
    else some t

/-- Full resolution of one symlink entry as `shadow_symlink_leaves`
performs it: seed the loop with `read_link(entry)`. -/
def resolve_symlink_target (is_symlink : String → Bool) (read_link : String → String)
    (entry : String) (fuel : Nat) : Option String :=
  resolveGo is_symlink read_link entry (read_link entry) fuel

/-! ## Invariant definitions -/

/-- Inode registration invariant maintained by the resolver: every
registered inode is below `last_inode`; a `redirections` inode is in
neither other table; a `nix_paths` inode is also in `parent_prefixes`
(`serve_path` registers both); every `global_dirs` inode is in
`parent_prefixes`. -/
structure InodeInv (st : FsState) : Prop where
  bound_pp : ∀ i, (st.parent_prefixes i).isSome → i < st.last_inode
  bound_np : ∀ i, (st.nix_paths i).isSome → i < st.last_inode
  bound_rd : ∀ i, (st.redirections i).isSome → i < st.last_inode
  rd_excl : ∀ i, (st.redirections i).isSome →
    st.parent_prefixes i = none ∧ st.nix_paths i = none
  np_pp : ∀ i, (st.nix_paths i).isSome → (st.parent_prefixes i).isSome
  gd_pp : ∀ s i, hmLookupS st.global_dirs s = some i → (st.parent_prefixes i).isSome

/-- Key/`requested_path` coherence of a resolution DB: every entry's
stored `requested_path` equals the map key it sits under. -/
def DBWellKeyed (db : ResolutionDB) : Prop :=
  ∀ k r, alLookup k db = some r → r.requested_path = k

/-- The inner table `Resolution::to_human_toml_table` builds for an
entry (everything except the outer key). -/
def resolution_body (r : Resolution) : Toml :=
  match r with
  | Resolution.ConstantResolution d =>
    Toml.table
      ((d.decision.to_human_toml_table).foldl (fun acc kv => alInsert kv.1 kv.2 acc)
        (alInsert "resolution" (Toml.str "constant") []))

/-! ## Concrete instances used by counterexamples and witnesses -/

/-- A top-level package `foo`. -/
def spFoo : StorePath :=
  { path := "/nix/store/aaa-foo-1.0", origin := { attr := "foo", toplevel := true } }

/-- A top-level package `bar`. -/
def spBar : StorePath :=
  { path := "/nix/store/bbb-bar-2.0", origin := { attr := "bar", toplevel := true } }

/-- A regular-file index entry `/bin/hello`. -/
def entHello : FileTreeEntry := { path := "/bin/hello", node := FileNode.Regular }

/-- A popularity oracle scoring `bar` at 9 and `foo` at 1. -/
def pcEx : Popcount :=
  { native_build_inputs := fun s =>
      if s = spBar.path then some 9 else if s = spFoo.path then some 1 else none }

/-- A one-entry DB recording a `Provide` of `foo`'s `/bin/hello` for the
virtual path `bin/hello`. -/
def dbProvide : ResolutionDB :=
  [("bin/hello",
    Resolution.ConstantResolution
      { requested_path := "bin/hello",
        decision := Decision.Provide
          { kind := FileType.Symlink, file_entry_name := "/bin/hello",
            store_path := spFoo } })]

/-- Post-`init` state loaded with `dbProvide`. -/
def stProvide : FsState := fsInit (mkState dbProvide pcEx "/tmp/fwt")

/-- Post-`init` state with an empty DB. -/
def stEmptyDb : FsState := fsInit (mkState [] pcEx "/tmp/fwt")

/-- Environment for a lookup answered from the recorded DB: nothing on
the shadow tree, empty index, realization succeeds. -/
def envProvide : LookupEnv :=
  { shadow_exists := false, index_result := [], prompter_reply := none,
    realize := fun _ => true }

/-- Environment for a prompted lookup where the index returns `foo` and
`bar` (suggested is `bar`, the more popular) and the prompter chooses
`foo`. -/
def envChooseFoo : LookupEnv :=
  { shadow_exists := false,
    index_result := [(spFoo, entHello), (spBar, entHello)],
    prompter_reply := some (FsEventMessage.PackageSuggestion spFoo),
    realize := fun _ => true }

/-- An on-disk tree where `e`'s link target `t` is itself a symlink
(`e → t`, `t → u`). -/
def exReadLink : String → String :=
  fun s => if s = "e" then "t" else if s = "t" then "u" else ""

/-- `t` is the only symlink among the resolved targets. -/
def exIsSym : String → Bool := fun s => s = "t"

/-- A `provide` decision table with `kind` and `file_entry_name` present
but no `store_path`. -/
def tblNoStorePath : List (String × Toml) :=
  [("decision", Toml.str "provide"), ("file_entry_name", Toml.str "x"),
   ("kind", Toml.str "symlink")]

/-- A resolution document whose only entry has an unknown decision
discriminant. -/
def badDoc : Toml :=
  Toml.table [("bin/x", Toml.table [("decision", Toml.str "frobnicate")])]

/-- An `Ignore` resolution keyed (coherently) at `p`. -/
def rIg (p : String) : Resolution :=
  Resolution.ConstantResolution { requested_path := p, decision := Decision.Ignore }

/-- A `Provide`-of-`foo` resolution keyed (coherently) at `p`. -/
def rPv (p : String) : Resolution :=
  Resolution.ConstantResolution
    { requested_path := p,
      decision := Decision.Provide
        { kind := FileType.Symlink, file_entry_name := "/bin/hello",
          store_path := spFoo } }

/-- Concrete sorted DBs for the merge-law witnesses. -/
def dbA : ResolutionDB := [("a", rIg "a"), ("c", rPv "c")]

/-- Second merge operand: collides with `dbA` on `"a"`. -/
def dbB : ResolutionDB := [("a", rPv "a"), ("b", rIg "b")]

/-- Third merge operand. -/
def dbC : ResolutionDB := [("b", rPv "b"), ("d", rIg "d")]

/-- The lookup of `hello` under the `bin` directory (inode 2) against
`envChooseFoo`, from the empty-DB state. -/
def outChooseFoo : LookupOut := lookup stEmptyDb envChooseFoo 2 "hello"

/-- The lookup of `hello` under the `bin` directory (inode 2) against
`envProvide`, from the `dbProvide` state. -/
def outProvide : LookupOut := lookup stProvide envProvide 2 "hello"

/-! # Theorems -/

section MapLemmas

variable {α : Type}

theorem keyLt_trans {a b c : String} (h₁ : keyLt a b) (h₂ : keyLt b c) : keyLt a c :=
  lt_trans h₁ h₂

theorem keyLt_irrefl (a : String) : ¬ keyLt a a := lt_irrefl a.data

theorem keyLt_asymm {a b : String} (h : keyLt a b) : ¬ keyLt b a :=
  fun h' => keyLt_irrefl a (keyLt_trans h h')

theorem string_data_inj {a b : String} (h : a.data = b.data) : a = b := by
  cases a; cases b; exact congrArg String.mk h

theorem keyLt_trichotomy (a b : String) : keyLt a b ∨ a = b ∨ keyLt b a := by
  rcases lt_trichotomy a.data b.data with h | h | h
  · exact Or.inl h
  · exact Or.inr (Or.inl (string_data_inj h))
  · exact Or.inr (Or.inr h)

theorem ne_of_keyLt {a b : String} (h : keyLt a b) : a ≠ b := by
  intro he; subst he; exact keyLt_irrefl _ h

theorem ne'_of_keyLt {a b : String} (h : keyLt a b) : b ≠ a := by
  intro he; subst he; exact keyLt_irrefl _ h

theorem optOr_assoc (a b c : Option α) : optOr (optOr a b) c = optOr a (optOr b c) := by
  cases a <;> cases b <;> rfl

theorem optOr_none_right (a : Option α) : optOr a none = a := by
  cases a <;> rfl

theorem mem_alInsert {k : String} {v : α} {p : String × α} :
    ∀ {l : SortedMap α}, p ∈ alInsert k v l → p = (k, v) ∨ p ∈ l := by
  intro l
  induction l with
  | nil => simp [alInsert]
  | cons hd t ih =>
    obtain ⟨k', v'⟩ := hd
    simp only [alInsert]
    split
    · intro h; simpa using h
    · split
      · intro h
        rcases List.mem_cons.1 h with h | h
        · exact Or.inl h
        · exact Or.inr (List.mem_cons_of_mem _ h)
      · intro h
        rcases List.mem_cons.1 h with h | h
        · exact Or.inr (h ▸ List.mem_cons_self _ _)
        · rcases ih h with h | h
          · exact Or.inl h
          · exact Or.inr (List.mem_cons_of_mem _ h)

theorem sorted_alInsert {k : String} {v : α} :
    ∀ {l : SortedMap α}, DBSorted l → DBSorted (alInsert k v l) := by
  intro l
  induction l with
  | nil => intro _; simp [alInsert, DBSorted]
  | cons hd t ih =>
    obtain ⟨k', v'⟩ := hd
    intro hs
    rw [DBSorted, List.pairwise_cons] at hs
    obtain ⟨hlt, ht⟩ := hs
    simp only [alInsert]
    split
    · rename_i hk
      refine List.Pairwise.cons ?_ (List.Pairwise.cons hlt ht)
      intro p hp
      rcases List.mem_cons.1 hp with h | h
      · simpa [h] using hk
      · exact keyLt_trans hk (hlt p h)
    · split
      · rename_i hne heq
        subst heq
        exact List.Pairwise.cons hlt ht
      · rename_i h1 h2
        have hk : keyLt k' k := by
          rcases keyLt_trichotomy k k' with h | h | h
          · exact absurd h h1
          · exact absurd h h2
          · exact h
        refine List.Pairwise.cons ?_ (ih ht)
        intro p hp
        rcases mem_alInsert hp with h | h
        · simpa [h] using hk
        · exact hlt p h

theorem alLookup_alInsert (k : String) (v : α) (q : String) :
    ∀ l : SortedMap α,
      alLookup q (alInsert k v l) = if k = q then some v else alLookup q l := by
  intro l
  induction l with
  | nil => simp [alInsert, alLookup]
  | cons hd t ih =>
    obtain ⟨k', v'⟩ := hd
    simp only [alInsert]
    by_cases h1 : keyLt k k'
    · rw [if_pos h1]
      simp [alLookup]
    · rw [if_neg h1]
      by_cases h2 : k = k'
      · rw [if_pos h2]
        by_cases hq : k = q
        · simp [alLookup, hq]
        · have hq' : ¬ k' = q := fun h => hq (h2 ▸ h)
          simp [alLookup, hq, hq']
      · rw [if_neg h2]
        by_cases hq : k = q
        · have hq' : ¬ k' = q := fun h => h2 (hq.trans h.symm)
          simp only [alLookup, if_neg hq', ih, if_pos hq]
        · by_cases hq' : k' = q
          · simp [alLookup, hq, hq']
          · simp [alLookup, hq, hq', ih]

theorem alLookup_eq_none {q : String} :
    ∀ {l : SortedMap α}, (∀ p ∈ l, p.1 ≠ q) → alLookup q l = none := by
  intro l
  induction l with
  | nil => intro _; rfl
  | cons hd t ih =>
    obtain ⟨k, v⟩ := hd
    intro h
    have hk : k ≠ q := h (k, v) (List.mem_cons_self _ _)
    simp only [alLookup, if_neg hk]
    exact ih fun p hp => h p (List.mem_cons_of_mem _ hp)

theorem lastLookup_eq_none {q : String} :
    ∀ {l : List (String × α)}, (∀ p ∈ l, p.1 ≠ q) → lastLookup q l = none := by
  intro l
  induction l with
  | nil => intro _; rfl
  | cons hd t ih =>
    obtain ⟨k, v⟩ := hd
    intro h
    have hk : k ≠ q := h (k, v) (List.mem_cons_self _ _)
    simp only [lastLookup, if_neg hk, ih fun p hp => h p (List.mem_cons_of_mem _ hp)]
    rfl

theorem mem_of_alLookup {q : String} {v : α} :
    ∀ {l : SortedMap α}, alLookup q l = some v → (q, v) ∈ l := by
  intro l
  induction l with
  | nil => intro h; simp [alLookup] at h
  | cons hd t ih =>
    obtain ⟨k, v'⟩ := hd
    simp only [alLookup]
    split
    · rename_i heq
      intro h
      obtain rfl : v' = v := by injection h
      exact heq ▸ List.mem_cons_self _ _
    · intro h
      exact List.mem_cons_of_mem _ (ih h)

/-- In a sorted map, first-match lookup and last-match lookup agree. -/
theorem lastLookup_eq_alLookup {q : String} :
    ∀ {l : SortedMap α}, DBSorted l → lastLookup q l = alLookup q l := by
  intro l
  induction l with
  | nil => intro _; rfl
  | cons hd t ih =>
    obtain ⟨k, v⟩ := hd
    intro hs
    rw [DBSorted, List.pairwise_cons] at hs
    obtain ⟨hlt, ht⟩ := hs
    by_cases hk : k = q
    · subst hk
      have habs : ∀ p ∈ t, p.1 ≠ k := fun p hp => ne'_of_keyLt (hlt p hp)
      simp [lastLookup, alLookup, lastLookup_eq_none habs, optOr]
    · simp [lastLookup, alLookup, hk, optOr_none_right, ih ht]

theorem lastLookup_append (q : String) (l₁ l₂ : List (String × α)) :
    lastLookup q (l₁ ++ l₂) = optOr (lastLookup q l₂) (lastLookup q l₁) := by
  induction l₁ with
  | nil => simp [lastLookup, optOr_none_right]
  | cons hd t ih =>
    obtain ⟨k, v⟩ := hd
    simp only [List.cons_append, lastLookup, List.append_eq, ih, optOr_assoc]

theorem alLookup_foldl_alInsert (q : String) :
    ∀ (l : List (String × α)) (acc : SortedMap α),
      alLookup q (l.foldl (fun a kv => alInsert kv.1 kv.2 a) acc) =
        optOr (lastLookup q l) (alLookup q acc) := by
  intro l
  induction l with
  | nil => intro acc; simp [lastLookup, optOr]
  | cons hd t ih =>
    obtain ⟨k, v⟩ := hd
    intro acc
    simp only [List.foldl_cons, ih, lastLookup, alLookup_alInsert, optOr_assoc]
    congr 1
    by_cases hk : k = q
    · simp [hk, optOr]
    · have : ¬ q = k := fun h => hk h.symm
      simp [hk, this, optOr]

theorem sorted_foldl_alInsert :
    ∀ (l : List (String × α)) (acc : SortedMap α), DBSorted acc →
      DBSorted (l.foldl (fun a kv => alInsert kv.1 kv.2 a) acc) := by
  intro l
  induction l with
  | nil => intro acc h; exact h
  | cons hd t ih =>
    intro acc h
    exact ih _ (sorted_alInsert h)

theorem sorted_alOfList (l : List (String × α)) : DBSorted (alOfList l) :=
  sorted_foldl_alInsert l [] (List.Pairwise.nil)

theorem alLookup_alOfList (q : String) (l : List (String × α)) :
    alLookup q (alOfList l) = lastLookup q l := by
  rw [alOfList, alLookup_foldl_alInsert]
  simp [alLookup, optOr_none_right]

theorem alInsert_append {k : String} {v : α} :
    ∀ {l : SortedMap α}, (∀ p ∈ l, keyLt p.1 k) → alInsert k v l = l ++ [(k, v)] := by
  intro l
  induction l with
  | nil => intro _; rfl
  | cons hd t ih =>
    obtain ⟨k', v'⟩ := hd
    intro h
    have hk : keyLt k' k := h (k', v') (List.mem_cons_self _ _)
    have h1 : ¬ keyLt k k' := keyLt_asymm hk
    have h2 : ¬ k = k' := fun he => (ne'_of_keyLt hk) he
    simp only [alInsert, if_neg h1, if_neg h2, List.cons_append]
    rw [ih fun p hp => h p (List.mem_cons_of_mem _ hp)]

/-- Rebuilding an already-sorted map reproduces it exactly. -/
theorem alOfList_sorted_id {l : SortedMap α} (h : DBSorted l) : alOfList l = l := by
  suffices H : ∀ (rest acc : List (String × α)), DBSorted (acc ++ rest) →
      rest.foldl (fun a kv => alInsert kv.1 kv.2 a) acc = acc ++ rest by
    simpa using H l [] (by simpa using h)
  intro rest
  induction rest with
  | nil => intro acc _; simp
  | cons hd t ih =>
    obtain ⟨k, v⟩ := hd
    intro acc hs
    have hlt : ∀ p ∈ acc, keyLt p.1 k := by
      intro p hp
      have := (List.pairwise_append.1 hs).2.2 p hp (k, v) (List.mem_cons_self _ _)
      exact this
    simp only [List.foldl_cons, alInsert_append hlt]
    have hs' : DBSorted ((acc ++ [(k, v)]) ++ t) := by
      simpa [DBSorted] using hs
    rw [ih (acc ++ [(k, v)]) hs']
    simp

/-- Extensionality for sorted maps: equal lookups force equal representations. -/
theorem sortedMap_ext :
    ∀ {l₁ l₂ : SortedMap α}, DBSorted l₁ → DBSorted l₂ →
      (∀ q, alLookup q l₁ = alLookup q l₂) → l₁ = l₂ := by
  intro l₁
  induction l₁ with
  | nil =>
    intro l₂ _ _ h
    cases l₂ with
    | nil => rfl
    | cons hd t =>
      obtain ⟨k, v⟩ := hd
      have := h k
      simp [alLookup] at this
  | cons hd t₁ ih =>
    obtain ⟨k₁, v₁⟩ := hd
    intro l₂ hs₁ hs₂ h
    cases l₂ with
    | nil =>
      have := h k₁
      simp [alLookup] at this
    | cons hd₂ t₂ =>
      obtain ⟨k₂, v₂⟩ := hd₂
      rw [DBSorted, List.pairwise_cons] at hs₁ hs₂
      obtain ⟨hlt₁, ht₁⟩ := hs₁
      obtain ⟨hlt₂, ht₂⟩ := hs₂
      have hk : k₁ = k₂ := by
        by_contra hne
        have h₁ : alLookup k₁ ((k₂, v₂) :: t₂) = some v₁ := by
          rw [← h k₁]; simp [alLookup]
        have h₂ : alLookup k₂ ((k₁, v₁) :: t₁) = some v₂ := by
          rw [h k₂]; simp [alLookup]
        rw [alLookup, if_neg (fun he => hne he.symm)] at h₁
        rw [alLookup, if_neg hne] at h₂
        have m₁ := mem_of_alLookup h₁
        have m₂ := mem_of_alLookup h₂
        have lt₁ : keyLt k₂ k₁ := hlt₂ _ m₁
        have lt₂ : keyLt k₁ k₂ := hlt₁ _ m₂
        exact absurd (keyLt_trans lt₁ lt₂) (keyLt_irrefl _)
      subst hk
      have hv : v₁ = v₂ := by
        have := h k₁
        simp [alLookup] at this
        exact this
      subst hv
      have htail : ∀ q, alLookup q t₁ = alLookup q t₂ := by
        intro q
        by_cases hq : q = k₁
        · subst hq
          rw [alLookup_eq_none fun p hp => ne'_of_keyLt (hlt₁ p hp),
            alLookup_eq_none fun p hp => ne'_of_keyLt (hlt₂ p hp)]
        · have := h q
          rw [alLookup, if_neg (fun he => hq he.symm),
            alLookup, if_neg (fun he => hq he.symm)] at this
          exact this
      rw [ih ht₁ ht₂ htail]

/-- Soundness of the executable sortedness check. -/
theorem dbSorted_of_keysSortedB :
    ∀ {l : SortedMap α}, keysSortedB l = true → DBSorted l := by
  haveI : IsTrans (String × α) (fun a b => keyLt a.1 b.1) :=
    ⟨fun a b c hab hbc => keyLt_trans hab hbc⟩
  intro l
  induction l with
  | nil => intro _; exact List.Pairwise.nil
  | cons hd t ih =>
    intro h
    rw [DBSorted, ← List.chain'_iff_pairwise]
    cases t with
    | nil => simp
    | cons b t₂ =>
      rw [keysSortedB] at h
      have h' := Bool.and_eq_true_iff.mp h
      exact List.chain'_cons.mpr
        ⟨of_decide_eq_true h'.1, List.chain'_iff_pairwise.mpr (ih h'.2)⟩

end MapLemmas

/-- C3: the claim says `shadow_symlink_leaves` fully resolves each
symlink entry by iterated read-link *with loop protection* and
terminates for every package tree, including entries whose symlink
target is itself a symlink. The code re-reads `entry.path()` in the loop
body instead of the current target, so on the tree `e → t`, `t → u`
(where `t` is a symlink) the `while` loop never exits: for every
iteration bound the loop is still running, and no loop protection
exists. -/
theorem C3_shadow_symlink_resolution_diverges :
    ∀ fuel : Nat, resolve_symlink_target exIsSym exReadLink "e" fuel = none := by
  have step : ∀ fuel, resolveGo exIsSym exReadLink "e" "t" fuel = none := by
    intro fuel
    induction fuel with
    | zero => simp [resolveGo, exIsSym]
    | succ n ih =>
      simp only [resolveGo, exIsSym, exReadLink]
      simpa [exIsSym, exReadLink] using ih
  intro fuel
  simpa [resolve_symlink_target, exReadLink] using step fuel

/-- C4: unknown decision discriminants do fail with `UnexpectedType`,
but a `provide` table missing the required `store_path` field does not
fail with `MissingField("store_path")` — `ProvideData::from_toml`
panics via `expect` — and a `ParseResolutionError` raised while loading
does not abort startup: `read_resolution_db` discards it with `.ok()`
and reports an absent database. -/
theorem C4_parse_resolution_outcomes :
    Decision.from_toml [("decision", Toml.str "frobnicate")] =
      ParseOutcome.err
        (ParseResolutionError.UnexpectedType "`ignore` or `provide`" "decision") ∧
    Decision.from_toml [("decision", Toml.int 3)] =
      ParseOutcome.err
        (ParseResolutionError.UnexpectedType "`ignore` or `provide`" "decision") ∧
    Decision.from_toml [] = ParseOutcome.err (ParseResolutionError.MissingField "decision") ∧
    Decision.from_toml [("decision", Toml.str "provide")] =
      ParseOutcome.err (ParseResolutionError.MissingField "kind") ∧
    Decision.from_toml [("decision", Toml.str "provide"), ("kind", Toml.str "symlink")] =
      ParseOutcome.err (ParseResolutionError.MissingField "file_entry_name") ∧
    Decision.from_toml tblNoStorePath = ParseOutcome.panicked "missing `store_path` field" ∧
    Resolution.from_toml badDoc =
      ParseOutcome.err
        (ParseResolutionError.UnexpectedType "`ignore` or `provide`" "decision") ∧
    read_resolution_db badDoc = ParseOutcome.ok none := by
  refine ⟨rfl, rfl, rfl, rfl, rfl, rfl, rfl, rfl⟩

/-- C1: the claim says that for every chosen candidate the prompter may
return, the served path and the extended package are those of the
chosen candidate. In the code the `PackageSuggestion(pkg)` arm ignores
`pkg` except when recording the decision: with candidates `foo` and
`bar` (suggested head `bar`) and the prompter choosing `foo`, the reply
serves `bar`'s store path, the shadow tree is extended with `bar`, and
only the recorded DB entry carries `foo`. -/
theorem C1_lookup_serves_suggested_not_chosen :
    envChooseFoo.prompter_reply = some (FsEventMessage.PackageSuggestion spFoo) ∧
    outChooseFoo.sent = some ([(spBar, entHello), (spFoo, entHello)], spBar) ∧
    outChooseFoo.reply = Reply.entry 1200 9 FileType.Symlink ∧
    outChooseFoo.state.nix_paths 9 = some (spBar.join_entry entHello) ∧
    outChooseFoo.state.extended = [spBar] ∧
    alLookup "bin/hello" outChooseFoo.state.resolution_db = some (rPv "bin/hello") ∧
    spFoo ≠ spBar ∧
    spBar.join_entry entHello ≠ spFoo.join_entry entHello := by
  refine ⟨rfl, rfl, rfl, rfl, rfl, rfl, by decide, by decide⟩

/-- C2 (counterexample): after a single recorded-decision lookup the
inode handed to the kernel as a leaf symlink entry is registered in
*both* `parent_prefixes` and `nix_paths` (and not in `redirections`),
refuting "exactly one" and "leaf symlinks only in nix-paths or
redirections". -/
theorem C2_counterexample :
    outProvide.reply = Reply.entry 1200 9 FileType.Symlink ∧
    (outProvide.state.parent_prefixes 9).isSome = true ∧
    (outProvide.state.nix_paths 9).isSome = true ∧
    (outProvide.state.redirections 9).isSome = false := by
  refine ⟨rfl, rfl, rfl, rfl⟩

theorem hmUpdate_self {α : Type} (m : Nat → Option α) (k : Nat) (v : α) :
    hmUpdate m k v k = some v := by simp [hmUpdate]

theorem hmUpdate_ne {α : Type} (m : Nat → Option α) {k i : Nat} (v : α) (h : i ≠ k) :
    hmUpdate m k v i = m i := by simp [hmUpdate, h]

theorem hmUpdate_isSome_iff {α : Type} (m : Nat → Option α) (k i : Nat) (v : α) :
    (hmUpdate m k v i).isSome ↔ i = k ∨ (m i).isSome := by
  by_cases h : i = k <;> simp [hmUpdate, h]

theorem hmLookupS_cons (path : String) (ino : Nat) (gd : List (String × Nat)) (s : String) :
    hmLookupS ((path, ino) :: gd) s = if path = s then some ino else hmLookupS gd s := by
  by_cases h : path = s
  · simp [hmLookupS, List.find?, h]
  · have hb : (path == s) = false := beq_eq_false_iff_ne.mpr h
    simp [hmLookupS, List.find?, hb, h]

/-- C7: `readlink` leaves the state (in particular the `nix_paths`
record) unchanged and never panics; a `nix_paths` inode is re-realized —
on failure the reply is ENOENT and the entry is retained, on success the
stored bytes are replied; a `redirections` inode replies its stored
shadow-tree path; any other inode replies ENOENT. -/
theorem C7_readlink_behavior (st : FsState) (realize : String → Bool) (ino : Nat) :
    (readlink st realize ino).2 = st ∧
    (readlink st realize ino).1 ≠ ReadlinkReply.panicked ∧
    (∀ p, st.nix_paths ino = some p → realize p = false →
      (readlink st realize ino).1 = ReadlinkReply.enoent ∧
      (readlink st realize ino).2.nix_paths ino = some p) ∧
    (∀ p, st.nix_paths ino = some p → realize p = true →
      (readlink st realize ino).1 = ReadlinkReply.data p) ∧
    (st.nix_paths ino = none → ∀ p, st.redirections ino = some p →
      (readlink st realize ino).1 = ReadlinkReply.data p) ∧
    (st.nix_paths ino = none → st.redirections ino = none →
      (readlink st realize ino).1 = ReadlinkReply.enoent) := by
  unfold readlink
  cases hnp : st.nix_paths ino with
  | some p =>
    cases hr : realize p with
    | true => simp_all
    | false => simp_all
  | none =>
    cases hrd : st.redirections ino with
    | some p => simp_all
    | none => simp_all

/-- C7 (witness): the `bin/hello` inode of `outProvide` survives a
failing realization in `readlink` and answers once realization
succeeds. -/
theorem C7_readlink_witness :
    (readlink outProvide.state (fun _ => false) 9).1 = ReadlinkReply.enoent ∧
    (readlink outProvide.state (fun _ => false) 9).2.nix_paths 9 =
      some (spFoo.join "/bin/hello") ∧
    (readlink outProvide.state (fun _ => true) 9).1 =
      ReadlinkReply.data (spFoo.join "/bin/hello") := by
  refine ⟨?_, ?_, ?_⟩
  · exact ((C7_readlink_behavior outProvide.state (fun _ => false) 9).2.2.1
      (spFoo.join "/bin/hello") rfl rfl).1
  · exact ((C7_readlink_behavior outProvide.state (fun _ => false) 9).2.2.1
      (spFoo.join "/bin/hello") rfl rfl).2
  · exact (C7_readlink_behavior outProvide.state (fun _ => true) 9).2.2.2.1
      (spFoo.join "/bin/hello") rfl rfl

/-- C8 (counterexample): the claim says IgnorePendingRequests is replied
exactly when the read line is `n`, `no`, or blank, and any other
non-integer input repeats the prompt. The line `"N"` is none of `n`,
`no`, blank (and not an integer), yet the prompter — which lowercases
the trimmed line — replies IgnorePendingRequests instead of
re-prompting. -/
theorem C8_counterexample :
    ui_reply false [(spFoo, entHello)] (spFoo, entHello) ["N"] =
      UiOutcome.replied UiReply.IgnorePendingRequests ∧
    strTrim "N" = "N" ∧ "N" ≠ "n" ∧ "N" ≠ "no" ∧ "N" ≠ "" ∧
    parse_usize "N" = none := by
  exact ⟨rfl, rfl, by decide, by decide, by decide, rfl⟩

/-- C8 (amended): in automatic mode every `InteractiveSearch` is
immediately answered with the suggestion; otherwise one prompt
iteration skips (→ IgnorePendingRequests) exactly when the trimmed line
is blank or case-insensitively `n`/`no`, picks index `k-1` exactly when
the trimmed line parses as an integer `k` with `1 ≤ k ≤ n`, and any
other line repeats the prompt on the remaining input; a picked index is
answered with the candidate at that position. -/
theorem C8_prompter_amended :
    (∀ (cands : List (StorePath × FileTreeEntry)) (sugg : StorePath × FileTreeEntry)
      (inputs : List String),
      ui_reply true cands sugg inputs =
        UiOutcome.replied (UiReply.PackageSuggestion sugg)) ∧
    (∀ (n : Nat) (line : String),
      promptStep n line = PromptOutcome.skip ↔ is_no_answer line = true) ∧
    (∀ (n : Nat) (line : String) (k : Nat),
      promptStep n line = PromptOutcome.pick k ↔
        (is_no_answer line = false ∧
          ∃ m, parse_usize (strTrim line) = some m ∧ 1 ≤ m ∧ m ≤ n ∧ k = m - 1)) ∧
    (∀ (cands : List (StorePath × FileTreeEntry)) (sugg : StorePath × FileTreeEntry)
      (line : String) (rest : List String) (k : Nat) (c : StorePath × FileTreeEntry),
      promptStep cands.length line = PromptOutcome.pick k → cands[k]? = some c →
      ui_reply false cands sugg (line :: rest) =
        UiOutcome.replied (UiReply.PackageSuggestion c)) ∧
    (∀ (cands : List (StorePath × FileTreeEntry)) (sugg : StorePath × FileTreeEntry)
      (line : String) (rest : List String),
      promptStep cands.length line = PromptOutcome.skip →
      ui_reply false cands sugg (line :: rest) =
        UiOutcome.replied UiReply.IgnorePendingRequests) ∧
    (∀ (cands : List (StorePath × FileTreeEntry)) (sugg : StorePath × FileTreeEntry)
      (line : String) (rest : List String),
      promptStep cands.length line = PromptOutcome.retry →
      ui_reply false cands sugg (line :: rest) = ui_reply false cands sugg rest) := by
  refine ⟨fun _ _ _ => rfl, ?_, ?_, ?_, ?_, ?_⟩
  · intro n line
    by_cases h : is_no_answer line
    · simp [promptStep, h]
    · simp only [Bool.not_eq_true] at h
      simp only [promptStep, h, Bool.false_eq_true, if_false]
      cases hp : parse_usize (strTrim line) with
      | none => simp
      | some m =>
        by_cases hr : 1 ≤ m ∧ m ≤ n <;> simp [hr]
  · intro n line k
    by_cases h : is_no_answer line
    · simp [promptStep, h]
    · simp only [Bool.not_eq_true] at h
      simp only [promptStep, h, Bool.false_eq_true, if_false, true_and]
      cases hp : parse_usize (strTrim line) with
      | none => simp
      | some m =>
        by_cases hr : 1 ≤ m ∧ m ≤ n
        · simp only [hr, if_true, and_true]
          constructor
          · intro he
            exact ⟨m, rfl, hr.1, hr.2, (PromptOutcome.pick.injEq _ _ ▸ he).symm⟩
          · rintro ⟨m', hm', h1, h2, rfl⟩
            obtain rfl : m = m' := by injection hm'
            rfl
        · simp only [hr, if_false]
          constructor
          · intro he; cases he
          · rintro ⟨m', hm', h1, h2, rfl⟩
            obtain rfl : m = m' := by injection hm'
            exact absurd ⟨h1, h2⟩ hr
  · intro cands sugg line rest k c hstep hget
    simp only [ui_reply, prompt_among_choices, List.length_map, hstep, hget,
      Bool.false_eq_true, if_false]
  · intro cands sugg line rest hstep
    simp only [ui_reply, prompt_among_choices, List.length_map, hstep,
      Bool.false_eq_true, if_false]
  · intro cands sugg line rest hstep
    simp only [ui_reply, prompt_among_choices, List.length_map, hstep,
      Bool.false_eq_true, if_false]

/-- C8 (amended, witness): concrete runs of the prompter — an automatic
reply; the line `" 2 "` picking the second of two candidates; the line
`"no"` skipping; the line `"xyz"` re-prompting and a following `"1"`
picking the first candidate. -/
theorem C8_prompter_amended_witness :
    ui_reply true [(spFoo, entHello)] (spBar, entHello) [] =
      UiOutcome.replied (UiReply.PackageSuggestion (spBar, entHello)) ∧
    (promptStep 2 " 2 " = PromptOutcome.pick 1 ↔
      (is_no_answer " 2 " = false ∧
        ∃ m, parse_usize (strTrim " 2 ") = some m ∧ 1 ≤ m ∧ m ≤ 2 ∧ 1 = m - 1)) ∧
    ui_reply false [(spFoo, entHello), (spBar, entHello)] (spFoo, entHello) [" 2 "] =
      UiOutcome.replied (UiReply.PackageSuggestion (spBar, entHello)) ∧
    ui_reply false [(spFoo, entHello)] (spFoo, entHello) ["no", "1"] =
      UiOutcome.replied UiReply.IgnorePendingRequests ∧
    ui_reply false [(spFoo, entHello)] (spFoo, entHello) ["xyz", "1"] =
      ui_reply false [(spFoo, entHello)] (spFoo, entHello) ["1"] := by
  refine ⟨C8_prompter_amended.1 _ _ _, C8_prompter_amended.2.2.1 2 " 2 " 1, ?_, ?_, ?_⟩
  · exact C8_prompter_amended.2.2.2.1 _ _ " 2 " [] 1 (spBar, entHello) (by decide) rfl
  · exact C8_prompter_amended.2.2.2.2.1 _ _ "no" ["1"] (by decide)
  · exact C8_prompter_amended.2.2.2.2.2 _ _ "xyz" ["1"] (by decide)

theorem sorted_sort_by_cached_key {α : Type} (key : α → Int) (l : List α) :
    (sort_by_cached_key key l).Sorted (fun a b => key a ≤ key b) := by
  haveI : IsTotal α (fun a b => key a ≤ key b) := ⟨fun a b => Int.le_total _ _⟩
  haveI : IsTrans α (fun a b => key a ≤ key b) := ⟨fun _ _ _ h₁ h₂ => le_trans h₁ h₂⟩
  exact List.sorted_insertionSort _ _

theorem filter_orderedInsert_key {α : Type} (key : α → Int) (z : Int) (a : α) :
    ∀ l : List α,
      (List.orderedInsert (fun x y => key x ≤ key y) a l).filter
          (fun x => decide (key x = z)) =
        if key a = z then a :: l.filter (fun x => decide (key x = z))
        else l.filter (fun x => decide (key x = z)) := by
  intro l
  induction l with
  | nil => by_cases h : key a = z <;> simp [List.orderedInsert, List.filter, h]
  | cons b t ih =>
    by_cases hab : key a ≤ key b
    · simp only [List.orderedInsert, if_pos hab]
      by_cases h : key a = z <;> simp [List.filter_cons, h]
    · have hba : key b < key a := not_le.mp hab
      simp only [List.orderedInsert, if_neg hab, List.filter_cons, ih]
      by_cases hz : key a = z
      · have hbz : ¬ key b = z := by
          intro h
          rw [h, ← hz] at hba
          exact lt_irrefl _ hba
        simp [hz, hbz]
      · by_cases hbz : key b = z <;> simp [hz, hbz]

theorem filter_sort_by_cached_key {α : Type} (key : α → Int) (z : Int) :
    ∀ l : List α,
      (sort_by_cached_key key l).filter (fun x => decide (key x = z)) =
        l.filter (fun x => decide (key x = z)) := by
  intro l
  induction l with
  | nil => rfl
  | cons a t ih =>
    show (List.orderedInsert _ a (List.insertionSort _ t)).filter _ = _
    rw [filter_orderedInsert_key]
    have ht : (List.insertionSort (fun x y => key x ≤ key y) t).filter
        (fun x => decide (key x = z)) = t.filter (fun x => decide (key x = z)) := ih
    by_cases h : key a = z <;> simp [List.filter_cons, h, ht]

/-- Whenever `lookup` sends an `InteractiveSearch(candidates, suggested)`
message, the candidate list is the stable-sorted filtered index result
and the suggestion is the head's store path. -/
theorem lookup_sent_eq (st : FsState) (env : LookupEnv) (parent : Nat) (name : String)
    {cs : List (StorePath × FileTreeEntry)} {sugg : StorePath}
    (h : (lookup st env parent name).sent = some (cs, sugg)) :
    cs = sort_by_cached_key (popKey st.popcount_buffer) (search_in_index env) ∧
    cs.head?.map Prod.fst = some sugg := by
  unfold lookup at h
  cases hpp : st.parent_prefixes parent with
  | none => simp [hpp] at h
  | some pfx =>
    simp only [hpp] at h
    cases hgd : hmLookupS st.global_dirs (joinPath pfx name) with
    | some ino => simp [hgd] at h
    | none =>
      simp only [hgd] at h
      by_cases hroot : parent = 1
      · rw [if_pos hroot] at h; simp at h
      · rw [if_neg hroot] at h
        by_cases hre : st.recorded_enoent.contains (parent, name) = true
        · rw [if_pos hre] at h; simp at h
        · rw [if_neg hre] at h
          by_cases hsh : env.shadow_exists = true
          · rw [if_pos hsh] at h; simp [redirect_to_fs] at h
          · rw [if_neg hsh] at h
            cases hdec : get_decision st (joinPath pfx name) with
            | some d =>
              cases d with
              | Ignore => simp [hdec] at h
              | Provide data =>
                simp only [hdec] at h
                unfold serve_path at h
                split at h <;> simp at h
            | none =>
              simp only [hdec] at h
              cases hsearch : search_in_index env with
              | nil => simp [hsearch] at h
              | cons c cs' =>
                simp only [hsearch, extract_optimal_path] at h
                cases hhead :
                    (sort_by_cached_key (popKey st.popcount_buffer) (c :: cs')).head? with
                | none => simp [hhead] at h
                | some b =>
                  simp only [hhead] at h
                  have goal :
                      cs = sort_by_cached_key (popKey st.popcount_buffer) (c :: cs') ∧
                        sugg = b.1 →
                        cs = sort_by_cached_key (popKey st.popcount_buffer) (c :: cs') ∧
                          cs.head?.map Prod.fst = some sugg := by
                    rintro ⟨rfl, rfl⟩
                    exact ⟨rfl, by rw [hhead]; rfl⟩
                  cases hrep : env.prompter_reply with
                  | none =>
                    simp only [hrep] at h
                    simp at h
                    exact goal ⟨h.1.symm, h.2.symm⟩
                  | some msg =>
                    cases msg with
                    | IgnorePendingRequests =>
                      simp only [hrep] at h
                      simp at h
                      exact goal ⟨h.1.symm, h.2.symm⟩
                    | PackageSuggestion pkg =>
                      simp only [hrep] at h
                      unfold serve_path at h
                      split at h <;>
                        (simp at h; exact goal ⟨h.1.symm, h.2.symm⟩)

/-- C5: when the index probe is non-empty, the candidate list sent to
the prompter is the filtered index result sorted by the signed key
`-popularity` (missing packages scoring 0), the sort is stable — sorted
by the key, with every key-class keeping the natural index order, and
deterministic since `lookup` is a function — and the suggested
candidate sent along is the head of the sorted list. -/
theorem C5_ranking (st : FsState) (env : LookupEnv) (parent : Nat) (name : String)
    (cs : List (StorePath × FileTreeEntry)) (sugg : StorePath)
    (h : (lookup st env parent name).sent = some (cs, sugg)) :
    cs = sort_by_cached_key (popKey st.popcount_buffer) (search_in_index env) ∧
    cs.Sorted (fun a b => popKey st.popcount_buffer a ≤ popKey st.popcount_buffer b) ∧
    (∀ z : Int, cs.filter (fun c => decide (popKey st.popcount_buffer c = z)) =
      (search_in_index env).filter (fun c => decide (popKey st.popcount_buffer c = z))) ∧
    cs.head?.map Prod.fst = some sugg := by
  obtain ⟨hcs, hhead⟩ := lookup_sent_eq st env parent name h
  subst hcs
  exact ⟨rfl, sorted_sort_by_cached_key _ _,
    fun z => filter_sort_by_cached_key _ z _, hhead⟩

/-- C5 (witness): the `envChooseFoo` lookup (index `[foo, bar]`, with
popularity `bar = 9 > foo = 1`) prompts with candidates `[bar, foo]`
and suggestion `bar`, matching the spec's ranking example. -/
theorem C5_ranking_witness :
    ([(spBar, entHello), (spFoo, entHello)] : List (StorePath × FileTreeEntry)) =
      sort_by_cached_key (popKey stEmptyDb.popcount_buffer) (search_in_index envChooseFoo) ∧
    ([(spBar, entHello), (spFoo, entHello)] : List (StorePath × FileTreeEntry)).Sorted
      (fun a b => popKey stEmptyDb.popcount_buffer a ≤ popKey stEmptyDb.popcount_buffer b) ∧
    (∀ z : Int,
      ([(spBar, entHello), (spFoo, entHello)] : List (StorePath × FileTreeEntry)).filter
          (fun c => decide (popKey stEmptyDb.popcount_buffer c = z)) =
        (search_in_index envChooseFoo).filter
          (fun c => decide (popKey stEmptyDb.popcount_buffer c = z))) ∧
    ([(spBar, entHello), (spFoo, entHello)] :
      List (StorePath × FileTreeEntry)).head?.map Prod.fst = some spBar :=
  C5_ranking stEmptyDb envChooseFoo 2 "hello" [(spBar, entHello), (spFoo, entHello)]
    spBar rfl

theorem sorted_merge (A B : ResolutionDB) : DBSorted (merge_resolution_db A B) :=
  sorted_alOfList _

theorem alLookup_merge (A B : ResolutionDB) (hA : DBSorted A) (hB : DBSorted B)
    (q : String) :
    alLookup q (merge_resolution_db A B) = optOr (alLookup q B) (alLookup q A) := by
  rw [merge_resolution_db, alLookup_alOfList, lastLookup_append,
    lastLookup_eq_alLookup hA, lastLookup_eq_alLookup hB]

/-- C9: `merge_resolution_db` is a right-biased union: the empty map is
a two-sided identity, merging is associative, and every binding of the
right operand survives in the result (so on a collision the right
operand's resolution wins). -/
theorem C9_merge_laws (A B C : ResolutionDB)
    (hA : DBSorted A) (hB : DBSorted B) (hC : DBSorted C) :
    merge_resolution_db A [] = A ∧
    merge_resolution_db [] B = B ∧
    merge_resolution_db (merge_resolution_db A B) C =
      merge_resolution_db A (merge_resolution_db B C) ∧
    (∀ k r, alLookup k B = some r → alLookup k (merge_resolution_db A B) = some r) := by
  refine ⟨?_, ?_, ?_, ?_⟩
  · rw [merge_resolution_db, List.append_nil]; exact alOfList_sorted_id hA
  · rw [merge_resolution_db, List.nil_append]; exact alOfList_sorted_id hB
  · apply sortedMap_ext (sorted_merge _ _) (sorted_merge _ _)
    intro q
    rw [alLookup_merge _ C (sorted_merge A B) hC q, alLookup_merge A B hA hB q,
      alLookup_merge A _ hA (sorted_merge B C) q, alLookup_merge B C hB hC q]
    exact (optOr_assoc _ _ _).symm
  · intro k r hk
    rw [alLookup_merge A B hA hB k, hk]
    rfl

/-- C9 (witness): the merge laws evaluated on the concrete databases
`dbA`, `dbB`, `dbC` (with `dbA` and `dbB` colliding on `"a"`). -/
theorem C9_merge_laws_witness :
    merge_resolution_db dbA [] = dbA ∧
    merge_resolution_db [] dbB = dbB ∧
    merge_resolution_db (merge_resolution_db dbA dbB) dbC =
      merge_resolution_db dbA (merge_resolution_db dbB dbC) ∧
    (∀ k r, alLookup k dbB = some r → alLookup k (merge_resolution_db dbA dbB) = some r) :=
  C9_merge_laws dbA dbB dbC (dbSorted_of_keysSortedB (by decide))
    (dbSorted_of_keysSortedB (by decide)) (dbSorted_of_keysSortedB (by decide))

theorem alLookup_of_mem {α : Type} {l : SortedMap α} (hs : DBSorted l) {k : String}
    {v : α} (hm : (k, v) ∈ l) : alLookup k l = some v := by
  induction l with
  | nil => cases hm
  | cons hd t ih =>
    obtain ⟨k', v'⟩ := hd
    rw [DBSorted, List.pairwise_cons] at hs
    rcases List.mem_cons.1 hm with he | hm'
    · obtain ⟨rfl, rfl⟩ : k' = k ∧ v' = v := by
        have h1 := congrArg Prod.fst he
        have h2 := congrArg Prod.snd he
        exact ⟨h1.symm, h2.symm⟩
      simp [alLookup]
    · have hne : ¬ k' = k := ne_of_keyLt (hs.1 (k, v) hm')
      rw [alLookup, if_neg hne]
      exact ih hs.2 hm'

theorem resolution_table_eq (r : Resolution) :
    Resolution.to_human_toml_table r = [(r.requested_path, resolution_body r)] := by
  cases r; rfl

/-- C10: every `ResolutionDB` entry the program produces satisfies
`key = requested_path`: `from_toml_item` keys by the table key it also
stores, `record_resolution` keys by the virtual path it also stores,
and `merge_resolution_db` preserves the property; consequently
`db_to_human_toml` — which emits each entry under its value's
`requested_path` — serializes every entry under its map key. -/
theorem C10_requested_path_coherence :
    (∀ (item : String × Toml) (k : String) (r : Resolution),
      Resolution.from_toml_item item = ParseOutcome.ok (k, r) → r.requested_path = k) ∧
    (∀ (st : FsState) (path : String) (d : Decision),
      DBWellKeyed st.resolution_db →
      DBWellKeyed (record_resolution st path d).resolution_db) ∧
    (∀ A B : ResolutionDB, DBSorted A → DBSorted B → DBWellKeyed A → DBWellKeyed B →
      DBWellKeyed (merge_resolution_db A B)) ∧
    (∀ db : ResolutionDB, DBSorted db → DBWellKeyed db →
      db_to_human_toml db = db.map (fun kr => (kr.1, resolution_body kr.2))) := by
  refine ⟨?_, ?_, ?_, ?_⟩
  · intro item k r h
    obtain ⟨key, t⟩ := item
    cases t with
    | table kvs =>
      simp only [Resolution.from_toml_item] at h
      cases hdec : Decision.from_toml kvs with
      | ok d =>
        rw [hdec] at h
        obtain ⟨rfl, rfl⟩ : key = k ∧
            Resolution.ConstantResolution { requested_path := key, decision := d } = r := by
          injection h with h'
          exact ⟨congrArg Prod.fst h', congrArg Prod.snd h'⟩
        rfl
      | err e => rw [hdec] at h; cases h
      | panicked m => rw [hdec] at h; cases h
    | str s => cases h
    | int n => cases h
    | boolean b => cases h
    | arr xs => cases h
  · intro st path d h k r hk
    rw [record_resolution] at hk
    rw [alLookup_alInsert] at hk
    by_cases hp : path = k
    · rw [if_pos hp] at hk
      obtain rfl : Resolution.ConstantResolution { requested_path := path, decision := d }
          = r := by injection hk
      exact hp
    · rw [if_neg hp] at hk
      exact h k r hk
  · intro A B hsA hsB hA hB k r hk
    rw [alLookup_merge A B hsA hsB] at hk
    cases hb : alLookup k B with
    | some v =>
      rw [hb] at hk
      obtain rfl : v = r := by injection hk
      exact hB k v hb
    | none =>
      rw [hb] at hk
      exact hA k r hk
  · intro db hs hwk
    have hmem : ∀ p ∈ db, p.2.requested_path = p.1 := by
      intro p hp
      exact hwk p.1 p.2 (alLookup_of_mem hs (by simpa using hp))
    rw [db_to_human_toml]
    rw [List.foldl_ext _ (fun acc kr => alInsert kr.1 (resolution_body kr.2) acc) []
      (fun acc kr hkr => by
        rw [resolution_table_eq]
        simp only [List.foldl_cons, List.foldl_nil]
        rw [hmem kr hkr])]
    have step2 : db.foldl (fun acc kr => alInsert kr.1 (resolution_body kr.2) acc) [] =
        alOfList (db.map fun kr => (kr.1, resolution_body kr.2)) := by
      rw [alOfList, List.foldl_map]
    rw [step2]
    apply alOfList_sorted_id
    rw [DBSorted, List.pairwise_map]
    exact hs

/-- C10 (witness): coherence evaluated concretely — a parsed item keyed
`"bin/x"`, a recorded decision at `"bin/hello"`, the merge of `dbA` and
`dbB`, and the serialization of `dbA` emitting entries under their map
keys. -/
theorem C10_requested_path_coherence_witness :
    (rIg "bin/x").requested_path = "bin/x" ∧
    DBWellKeyed (record_resolution (mkState [] pcEx "/tmp/fwt") "bin/hello"
      Decision.Ignore).resolution_db ∧
    DBWellKeyed (merge_resolution_db dbA dbB) ∧
    db_to_human_toml dbA = dbA.map (fun kr => (kr.1, resolution_body kr.2)) := by
  have hAwk : DBWellKeyed dbA := by
    intro k r hk
    rcases keyLt_trichotomy k "a" with h | h | h
    all_goals
      simp only [dbA, alLookup, rIg, rPv] at hk
      split at hk
      · rename_i he
        subst he
        injection hk with hk'
        subst hk'
        rfl
      · split at hk
        · rename_i he
          subst he
          injection hk with hk'
          subst hk'
          rfl
        · cases hk
  refine ⟨?_, ?_, ?_, ?_⟩
  · exact C10_requested_path_coherence.1 ("bin/x",
      Toml.table [("decision", Toml.str "ignore")]) "bin/x" (rIg "bin/x") rfl
  · exact C10_requested_path_coherence.2.1 (mkState [] pcEx "/tmp/fwt") "bin/hello"
      Decision.Ignore (fun k r hk => by cases hk)
  · refine C10_requested_path_coherence.2.2.1 dbA dbB
      (dbSorted_of_keysSortedB (by decide)) (dbSorted_of_keysSortedB (by decide))
      hAwk ?_
    intro k r hk
    simp only [dbB, alLookup, rIg, rPv] at hk
    split at hk
    · rename_i he
      subst he
      injection hk with hk'
      subst hk'
      rfl
    · split at hk
      · rename_i he
        subst he
        injection hk with hk'
        subst hk'
        rfl
      · cases hk
  · exact C10_requested_path_coherence.2.2.2 dbA
      (dbSorted_of_keysSortedB (by decide)) hAwk

theorem lookup_last_le (st : FsState) (env : LookupEnv) (p : Nat) (n : String) :
    st.last_inode ≤ (lookup st env p n).state.last_inode := by
  unfold lookup serve_path redirect_to_fs record_resolution extend_fast_working_tree
  iterate 14 ((all_goals (try dsimp only)); (all_goals (try split)))
  all_goals simp_arith

theorem lookup_enoent_last (st : FsState) (env : LookupEnv) (p : Nat) (n : String) :
    (lookup st env p n).reply = Reply.enoent →
    (lookup st env p n).state.last_inode = st.last_inode := by
  unfold lookup serve_path redirect_to_fs record_resolution extend_fast_working_tree
  iterate 14 ((all_goals (try dsimp only)); (all_goals (try split)))
  all_goals intro h
  all_goals first
    | rfl
    | (exfalso; exact Reply.noConfusion h)

/-- C6: `last_inode` never decreases across a `lookup` call; a call that
replies ENOENT leaves it unchanged (in particular the empty-index branch
and the IgnorePendingRequests branch allocate no inode); and along any
sequence of `lookup` calls `last_inode` is non-decreasing. -/
theorem C6_inode_monotonicity :
    (∀ (st : FsState) (env : LookupEnv) (p : Nat) (n : String),
      st.last_inode ≤ (lookup st env p n).state.last_inode ∧
      ((lookup st env p n).reply = Reply.enoent →
        (lookup st env p n).state.last_inode = st.last_inode)) ∧
    (∀ (st : FsState) (calls : List LookupCall),
      st.last_inode ≤ (runLookups st calls).last_inode) := by
  constructor
  · intro st env p n
    exact ⟨lookup_last_le st env p n, lookup_enoent_last st env p n⟩
  · intro st calls
    induction calls generalizing st with
    | nil => exact le_refl _
    | cons c cs ih =>
      exact le_trans (lookup_last_le st c.env c.parent c.name) (ih _)

/-- C6 (witness): the empty-index lookup `envProvide` at the root
replies ENOENT and leaves `last_inode` at its prior value 9. -/
theorem C6_inode_monotonicity_witness :
    stEmptyDb.last_inode ≤ (lookup stEmptyDb envProvide 2 "hello").state.last_inode ∧
    (lookup stEmptyDb envProvide 2 "hello").state.last_inode = stEmptyDb.last_inode ∧
    stEmptyDb.last_inode ≤ (runLookups stEmptyDb []).last_inode := by
  refine ⟨(C6_inode_monotonicity.1 stEmptyDb envProvide 2 "hello").1,
    (C6_inode_monotonicity.1 stEmptyDb envProvide 2 "hello").2 rfl,
    C6_inode_monotonicity.2 stEmptyDb []⟩

theorem inodeInv_of_eq {st st' : FsState} (h : InodeInv st)
    (hpp : st'.parent_prefixes = st.parent_prefixes)
    (hnp : st'.nix_paths = st.nix_paths)
    (hrd : st'.redirections = st.redirections)
    (hgd : st'.global_dirs = st.global_dirs)
    (hli : st'.last_inode = st.last_inode) : InodeInv st' :=
  ⟨by rw [hpp, hli]; exact h.bound_pp, by rw [hnp, hli]; exact h.bound_np,
   by rw [hrd, hli]; exact h.bound_rd, by rw [hrd, hpp, hnp]; exact h.rd_excl,
   by rw [hnp, hpp]; exact h.np_pp, by rw [hgd, hpp]; exact h.gd_pp⟩

theorem inodeInv_alloc_pp_np {st st' : FsState} (h : InodeInv st) (target nix : String)
    (hpp : st'.parent_prefixes = hmUpdate st.parent_prefixes st.last_inode target)
    (hnp : st'.nix_paths = hmUpdate st.nix_paths st.last_inode nix)
    (hrd : st'.redirections = st.redirections)
    (hgd : st'.global_dirs = st.global_dirs)
    (hli : st'.last_inode = st.last_inode + 1) : InodeInv st' := by
  constructor
  · intro i hi
    rw [hpp] at hi
    rw [hli]
    rcases (hmUpdate_isSome_iff _ _ _ _).1 hi with rfl | hi'
    · omega
    · have := h.bound_pp i hi'; omega
  · intro i hi
    rw [hnp] at hi
    rw [hli]
    rcases (hmUpdate_isSome_iff _ _ _ _).1 hi with rfl | hi'
    · omega
    · have := h.bound_np i hi'; omega
  · intro i hi
    rw [hrd] at hi
    rw [hli]
    have := h.bound_rd i hi; omega
  · intro i hi
    rw [hrd] at hi
    have hne : i ≠ st.last_inode := by have := h.bound_rd i hi; omega
    rw [hpp, hnp, hmUpdate_ne _ _ hne, hmUpdate_ne _ _ hne]
    exact h.rd_excl i hi
  · intro i hi
    rw [hnp] at hi
    rw [hpp]
    rcases (hmUpdate_isSome_iff _ _ _ _).1 hi with rfl | hi'
    · rw [hmUpdate_self]; rfl
    · have hne : i ≠ st.last_inode := by have := h.bound_np i hi'; omega
      rw [hmUpdate_ne _ _ hne]
      exact h.np_pp i hi'
  · intro s i hi
    rw [hgd] at hi
    rw [hpp]
    by_cases he : i = st.last_inode
    · subst he; rw [hmUpdate_self]; rfl
    · rw [hmUpdate_ne _ _ he]
      exact h.gd_pp s i hi

theorem inodeInv_alloc_pp {st st' : FsState} (h : InodeInv st) (target : String)
    (hpp : st'.parent_prefixes = hmUpdate st.parent_prefixes st.last_inode target)
    (hnp : st'.nix_paths = st.nix_paths)
    (hrd : st'.redirections = st.redirections)
    (hgd : st'.global_dirs = st.global_dirs)
    (hli : st'.last_inode = st.last_inode + 1) : InodeInv st' := by
  constructor
  · intro i hi
    rw [hpp] at hi
    rw [hli]
    rcases (hmUpdate_isSome_iff _ _ _ _).1 hi with rfl | hi'
    · omega
    · have := h.bound_pp i hi'; omega
  · intro i hi
    rw [hnp] at hi
    rw [hli]
    have := h.bound_np i hi; omega
  · intro i hi
    rw [hrd] at hi
    rw [hli]
    have := h.bound_rd i hi; omega
  · intro i hi
    rw [hrd] at hi
    have hne : i ≠ st.last_inode := by have := h.bound_rd i hi; omega
    rw [hpp, hnp, hmUpdate_ne _ _ hne]
    exact h.rd_excl i hi
  · intro i hi
    rw [hnp] at hi
    rw [hpp]
    have hne : i ≠ st.last_inode := by have := h.bound_np i hi; omega
    rw [hmUpdate_ne _ _ hne]
    exact h.np_pp i hi
  · intro s i hi
    rw [hgd] at hi
    rw [hpp]
    by_cases he : i = st.last_inode
    · subst he; rw [hmUpdate_self]; rfl
    · rw [hmUpdate_ne _ _ he]
      exact h.gd_pp s i hi

theorem inodeInv_alloc_rd {st st' : FsState} (h : InodeInv st) (path : String)
    (hpp : st'.parent_prefixes = st.parent_prefixes)
    (hnp : st'.nix_paths = st.nix_paths)
    (hrd : st'.redirections = hmUpdate st.redirections st.last_inode path)
    (hgd : st'.global_dirs = st.global_dirs)
    (hli : st'.last_inode = st.last_inode + 1) : InodeInv st' := by
  constructor
  · intro i hi
    rw [hpp] at hi
    rw [hli]
    have := h.bound_pp i hi; omega
  · intro i hi
    rw [hnp] at hi
    rw [hli]
    have := h.bound_np i hi; omega
  · intro i hi
    rw [hrd] at hi
    rw [hli]
    rcases (hmUpdate_isSome_iff _ _ _ _).1 hi with rfl | hi'
    · omega
    · have := h.bound_rd i hi'; omega
  · intro i hi
    rw [hrd] at hi
    rw [hpp, hnp]
    rcases (hmUpdate_isSome_iff _ _ _ _).1 hi with rfl | hi'
    · constructor
      · cases hp : st.parent_prefixes st.last_inode with
        | none => rfl
        | some v =>
          have := h.bound_pp st.last_inode (by rw [hp]; rfl)
          omega
      · cases hn : st.nix_paths st.last_inode with
        | none => rfl
        | some v =>
          have := h.bound_np st.last_inode (by rw [hn]; rfl)
          omega
    · exact h.rd_excl i hi'
  · intro i hi
    rw [hnp] at hi
    rw [hpp]
    exact h.np_pp i hi
  · intro s i hi
    rw [hgd] at hi
    rw [hpp]
    exact h.gd_pp s i hi

theorem inodeInv_lookup (st : FsState) (env : LookupEnv) (p : Nat) (n : String)
    (h : InodeInv st) : InodeInv (lookup st env p n).state := by
  unfold lookup serve_path redirect_to_fs record_resolution extend_fast_working_tree
  iterate 14 ((all_goals (try dsimp only)); (all_goals (try split)))
  all_goals first
    | exact inodeInv_of_eq h rfl rfl rfl rfl rfl
    | exact inodeInv_alloc_pp_np h _ _ rfl rfl rfl rfl rfl
    | exact inodeInv_alloc_pp h _ rfl rfl rfl rfl rfl
    | exact inodeInv_alloc_rd h _ rfl rfl rfl rfl rfl

/-- Every inode a `lookup` reply hands to the kernel is registered in
`parent_prefixes` or `redirections` of the post-state (given the
registration invariant). -/
theorem lookup_entry_registered (st : FsState) (env : LookupEnv) (p : Nat) (n : String)
    (h : InodeInv st) (t i : Nat) (k : FileType)
    (hr : (lookup st env p n).reply = Reply.entry t i k) :
    ((lookup st env p n).state.parent_prefixes i).isSome = true ∨
    ((lookup st env p n).state.redirections i).isSome = true := by
  unfold lookup at hr ⊢
  cases hpp : st.parent_prefixes p with
  | none => rw [hpp] at hr; cases hr
  | some pfx =>
    simp only [hpp] at hr ⊢
    cases hgd : hmLookupS st.global_dirs (joinPath pfx n) with
    | some ino =>
      simp only [hgd] at hr ⊢
      cases hr
      exact Or.inl (h.gd_pp _ _ hgd)
    | none =>
      simp only [hgd] at hr ⊢
      by_cases hroot : p = 1
      · rw [if_pos hroot] at hr; cases hr
      · rw [if_neg hroot] at hr ⊢
        by_cases hre : st.recorded_enoent.contains (p, n) = true
        · rw [if_pos hre] at hr; cases hr
        · rw [if_neg hre] at hr ⊢
          by_cases hsh : env.shadow_exists = true
          · rw [if_pos hsh] at hr ⊢
            unfold redirect_to_fs at hr ⊢
            dsimp only at hr ⊢
            cases hr
            exact Or.inr (by rw [hmUpdate_self]; rfl)
          · rw [if_neg hsh] at hr ⊢
            cases hdec : get_decision st (joinPath pfx n) with
            | some d =>
              cases d with
              | Ignore => simp only [hdec] at hr; cases hr
              | Provide data =>
                simp only [hdec] at hr ⊢
                unfold serve_path at hr ⊢
                dsimp only at hr ⊢
                by_cases hrl :
                    env.realize (data.store_path.join data.file_entry_name) = true
                · rw [if_pos hrl] at hr ⊢
                  dsimp only at hr ⊢
                  cases hr
                  exact Or.inl (by rw [hmUpdate_self]; rfl)
                · rw [if_neg hrl] at hr
                  dsimp only at hr
                  cases hr
            | none =>
              simp only [hdec] at hr ⊢
              cases hsearch : search_in_index env with
              | nil => simp only [hsearch] at hr; cases hr
              | cons c cs' =>
                simp only [hsearch, extract_optimal_path] at hr ⊢
                cases hhead :
                    (sort_by_cached_key (popKey st.popcount_buffer) (c :: cs')).head? with
                | none => simp only [hhead] at hr; cases hr
                | some b =>
                  simp only [hhead] at hr ⊢
                  cases hrep : env.prompter_reply with
                  | none => simp only [hrep] at hr; cases hr
                  | some msg =>
                    cases msg with
                    | IgnorePendingRequests => simp only [hrep] at hr; cases hr
                    | PackageSuggestion pkg =>
                      simp only [hrep] at hr ⊢
                      unfold serve_path record_resolution extend_fast_working_tree
                        at hr ⊢
                      dsimp only at hr ⊢
                      by_cases hrl : env.realize (b.1.join_entry b.2) = true
                      · rw [if_pos hrl] at hr ⊢
                        dsimp only at hr ⊢
                        cases hr
                        exact Or.inl (by rw [hmUpdate_self]; rfl)
                      · rw [if_neg hrl] at hr
                        dsimp only at hr
                        cases hr

theorem inodeInv_extend_fold (st : FsState) (h : InodeInv st) :
    ∀ l : List StorePath, InodeInv (l.foldl extend_fast_working_tree st) := by
  intro l
  induction l generalizing st with
  | nil => exact h
  | cons sp t ih =>
    exact ih (extend_fast_working_tree st sp) (inodeInv_of_eq h rfl rfl rfl rfl rfl)

theorem inodeInv_mkdir (st : FsState) (path : String) (h : InodeInv st) :
    InodeInv (mkdir_fhs_directory st path) := by
  unfold mkdir_fhs_directory
  dsimp only
  constructor <;> (try dsimp only)
  · intro i hi
    rcases (hmUpdate_isSome_iff _ _ _ _).1 hi with rfl | hi'
    · omega
    · have := h.bound_pp i hi'
      omega
  · intro i hi
    have := h.bound_np i hi
    omega
  · intro i hi
    have := h.bound_rd i hi
    omega
  · intro i hi
    have hne : i ≠ st.last_inode := by have := h.bound_rd i hi; omega
    rw [hmUpdate_ne _ _ hne]
    exact h.rd_excl i hi
  · intro i hi
    have hne : i ≠ st.last_inode := by have := h.bound_np i hi; omega
    rw [hmUpdate_ne _ _ hne]
    exact h.np_pp i hi
  · intro s i hi
    rw [hmLookupS_cons] at hi
    by_cases hp : path = s
    · rw [if_pos hp] at hi
      obtain rfl : st.last_inode = i := by injection hi
      rw [hmUpdate_self]; rfl
    · rw [if_neg hp] at hi
      by_cases he : i = st.last_inode
      · subst he; rw [hmUpdate_self]; rfl
      · rw [hmUpdate_ne _ _ he]
        exact h.gd_pp s i hi

theorem inodeInv_fsInit (db : ResolutionDB) (pb : Popcount) (fwt : String) :
    InodeInv (fsInit (mkState db pb fwt)) := by
  unfold fsInit
  apply inodeInv_extend_fold
  have hbase : InodeInv { mkState db pb fwt with
      parent_prefixes := hmUpdate (mkState db pb fwt).parent_prefixes 1 "" } := by
    constructor
    · intro i hi
      rcases (hmUpdate_isSome_iff _ _ _ _).1 hi with rfl | hi'
      · simp [mkState]
      · simp [mkState] at hi'
    · intro i hi; simp [mkState] at hi
    · intro i hi; simp [mkState] at hi
    · intro i hi; simp [mkState] at hi
    · intro i hi; simp [mkState] at hi
    · intro s i hi; simp [mkState, hmLookupS] at hi
  have hfold : ∀ (l : List String) (st : FsState), InodeInv st →
      InodeInv (l.foldl mkdir_fhs_directory st) := by
    intro l
    induction l with
    | nil => intro st h; exact h
    | cons a t ih => intro st h; exact ih _ (inodeInv_mkdir st a h)
  exact hfold fhs_dirs _ hbase

theorem inodeInv_run (st : FsState) (h : InodeInv st) (calls : List LookupCall) :
    InodeInv (runLookups st calls) := by
  induction calls generalizing st with
  | nil => exact h
  | cons c cs ih => exact ih _ (inodeInv_lookup st c.env c.parent c.name h)

/-- A single `lookup` never removes a registration: each of the three
inode tables only grows (pointwise, a registered inode stays
registered). -/
theorem lookup_tables_mono (st : FsState) (env : LookupEnv) (p : Nat) (n : String)
    (i : Nat) :
    ((st.parent_prefixes i).isSome = true →
      ((lookup st env p n).state.parent_prefixes i).isSome = true) ∧
    ((st.nix_paths i).isSome = true →
      ((lookup st env p n).state.nix_paths i).isSome = true) ∧
    ((st.redirections i).isSome = true →
      ((lookup st env p n).state.redirections i).isSome = true) := by
  unfold lookup serve_path redirect_to_fs record_resolution extend_fast_working_tree
  iterate 14 ((all_goals (try dsimp only)); (all_goals (try split)))
  all_goals refine ⟨?_, ?_, ?_⟩
  all_goals intro hi
  all_goals first
    | exact hi
    | exact (hmUpdate_isSome_iff _ _ _ _).2 (Or.inr hi)

/-- Registrations survive any further sequence of `lookup` calls. -/
theorem runLookups_tables_mono (st : FsState) (calls : List LookupCall) (i : Nat) :
    ((st.parent_prefixes i).isSome = true →
      ((runLookups st calls).parent_prefixes i).isSome = true) ∧
    ((st.nix_paths i).isSome = true →
      ((runLookups st calls).nix_paths i).isSome = true) ∧
    ((st.redirections i).isSome = true →
      ((runLookups st calls).redirections i).isSome = true) := by
  induction calls generalizing st with
  | nil => exact ⟨id, id, id⟩
  | cons c cs ih =>
    refine ⟨?_, ?_, ?_⟩ <;> intro hi
    · exact (ih _).1 ((lookup_tables_mono st c.env c.parent c.name i).1 hi)
    · exact (ih _).2.1 ((lookup_tables_mono st c.env c.parent c.name i).2.1 hi)
    · exact (ih _).2.2 ((lookup_tables_mono st c.env c.parent c.name i).2.2 hi)

theorem runLookups_append (st : FsState) (a b : List LookupCall) :
    runLookups st (a ++ b) = runLookups (runLookups st a) b := by
  induction a generalizing st with
  | nil => rfl
  | cons c cs ih => exact ih ((lookup st c.env c.parent c.name).state)

/-- C2 (amended): after `init` and any sequence of lookups, the inode
tables satisfy: every registered inode is below `last_inode`; a
redirection inode is registered nowhere else; a `nix_paths` inode is
also in `parent_prefixes`; every global-directory inode is in
`parent_prefixes`. And for any sequence split as `calls₁ ++ c :: calls₂`,
every inode the call `c` hands to the kernel in a reply is still
registered in one of the three tables after the whole sequence —
registrations are never removed. -/
theorem C2_amended_registration (db : ResolutionDB) (pb : Popcount) (fwt : String)
    (calls₁ : List LookupCall) (c : LookupCall) (calls₂ : List LookupCall) :
    InodeInv (runLookups (fsInit (mkState db pb fwt)) (calls₁ ++ c :: calls₂)) ∧
    (∀ (t i : Nat) (k : FileType),
      (lookup (runLookups (fsInit (mkState db pb fwt)) calls₁)
          c.env c.parent c.name).reply = Reply.entry t i k →
      ((runLookups (fsInit (mkState db pb fwt))
          (calls₁ ++ c :: calls₂)).parent_prefixes i).isSome = true ∨
      ((runLookups (fsInit (mkState db pb fwt))
          (calls₁ ++ c :: calls₂)).nix_paths i).isSome = true ∨
      ((runLookups (fsInit (mkState db pb fwt))
          (calls₁ ++ c :: calls₂)).redirections i).isSome = true) := by
  have hinv₁ := inodeInv_run _ (inodeInv_fsInit db pb fwt) calls₁
  constructor
  · exact inodeInv_run _ (inodeInv_fsInit db pb fwt) _
  · intro t i k hr
    have hreg := lookup_entry_registered _ c.env c.parent c.name hinv₁ t i k hr
    rw [runLookups_append]
    rcases hreg with hpp | hrd
    · exact Or.inl
        ((runLookups_tables_mono
          (lookup (runLookups (fsInit (mkState db pb fwt)) calls₁)
            c.env c.parent c.name).state calls₂ i).1 hpp)
    · exact Or.inr (Or.inr
        ((runLookups_tables_mono
          (lookup (runLookups (fsInit (mkState db pb fwt)) calls₁)
            c.env c.parent c.name).state calls₂ i).2.2 hrd))

/-- C2 (amended, witness): the `dbProvide` scenario — inode 9 is handed
out by a recorded-decision lookup and remains registered after the
sequence (in `parent_prefixes`, indeed in `nix_paths` too). -/
theorem C2_amended_registration_witness :
    ((runLookups (fsInit (mkState dbProvide pcEx "/tmp/fwt"))
        ([] ++ ⟨2, "hello", envProvide⟩ :: [])).parent_prefixes 9).isSome = true ∨
    ((runLookups (fsInit (mkState dbProvide pcEx "/tmp/fwt"))
        ([] ++ ⟨2, "hello", envProvide⟩ :: [])).nix_paths 9).isSome = true ∨
    ((runLookups (fsInit (mkState dbProvide pcEx "/tmp/fwt"))
        ([] ++ ⟨2, "hello", envProvide⟩ :: [])).redirections 9).isSome = true :=
  (C2_amended_registration dbProvide pcEx "/tmp/fwt" [] ⟨2, "hello", envProvide⟩ []).2
    1200 9 FileType.Symlink rfl

end BuildXYZ
